import Mathlib

/-!
Verification of the ChimpDAO NFC-NFT contract (contracts/nfc-nft).

The repository ships the contract trait (`lib.rs`), its error enum
(`errors.rs`), its event structs (`events.rs`) and its test suite
(`test.rs`), but the implementation module `contract.rs` referenced by
`mod contract;` is not part of the source tree.  The lifecycle engine is
therefore modelled from the specification (spec.md sections 3 and 4, the
trait documentation and the test expectations) as a shallow embedding:
byte strings are `List Nat`, addresses are `Nat`, machine integers are
`Nat` (all relevant values stay far below 2^32), host capabilities
(SHA-256, secp256k1 recovery, XDR encoding) are fields of an abstract
`HostEnv`, and fallible entry points return `Except`.  A failed call
leaves the state untouched (Soroban reverts the whole invocation on
panic), which the `Except`-based `step`/`run` semantics captures by
construction.
-/

namespace NFC

/-- Lifecycle states of a token, from spec.md section 4.3:
`Unminted → Minted(unclaimed) → Claimed → ClawedBack`. -/
inductive TokenStatus where
  | unminted
  | minted
  | claimed
  | clawedBack
deriving DecidableEq

/-- Error enum from contracts/nfc-nft/src/errors.rs. -/
inductive NonFungibleTokenError where
  | NonExistentToken
  | IncorrectOwner
  | TokenIDsAreDepleted
  | TokenAlreadyMinted
  | TokenAlreadyClaimed
  | InvalidSignature
  | TokenNotClaimed
deriving DecidableEq

/-- Numeric error codes assigned in contracts/nfc-nft/src/errors.rs. -/
def errorCode : NonFungibleTokenError → Nat
  | .NonExistentToken => 200
  | .IncorrectOwner => 201
  | .TokenIDsAreDepleted => 206
  | .TokenAlreadyMinted => 210
  | .TokenAlreadyClaimed => 212
  | .InvalidSignature => 214
  | .TokenNotClaimed => 215

/-- Event structs from contracts/nfc-nft/src/events.rs.  In the Rust
source the `token_id` payload field of `Mint`, `Claim` and `Transfer` is
declared as `u64`, while every public operation of the trait in `lib.rs`
uses `u32` token ids; both are modelled as `Nat` here and the width facts
are stated in the theorems. -/
inductive Event where
  | mintEv (token_id : Nat)
  | claimEv (claimant : Nat) (token_id : Nat)
  | transferEv (fromAddr : Nat) (toAddr : Nat) (token_id : Nat)
deriving DecidableEq

/-- Modelled from the spec: host capabilities consumed at the boundary
(spec.md section 6) — SHA-256 digest, secp256k1 public-key recovery from
(digest, 64-byte signature, selector), and the host XDR serialization of
addresses and of u32 values.  These are abstract parameters of the
embedding. -/
structure HostEnv where
  sha256 : List Nat → List Nat
  secp256k1_recover : List Nat → List Nat → Nat → Option (List Nat)
  xdrAddr : Nat → List Nat
  xdrU32 : Nat → List Nat

/-- Modelled from the spec: the persistent contract state of
contracts/nfc-nft (the storage written by the missing `contract.rs`):
admin identity, collection metadata, the token-id counter, the two
directions of the chip-key/token-id mapping, per-token owner and status,
per-owner balance, the per-chip replay nonce (absent is treated as 0),
and the emitted event log. -/
structure ContractState where
  admin : Nat
  contract_addr : Nat
  name : List Nat
  symbol : List Nat
  uri : List Nat
  max_tokens : Nat
  counter : Nat
  tokenOf : List Nat → Option Nat
  keyOf : Nat → Option (List Nat)
  owner : Nat → Option Nat
  balance : Nat → Nat
  nonce : List Nat → Option Nat
  status : Nat → TokenStatus
  events : List Event

/-- Modelled from the spec: the constructor of contracts/nfc-nft
(`__constructor` in lib.rs) — stores admin and metadata; every mapping
starts empty, the counter starts at 0. -/
def initState (admin contract_addr : Nat) (name symbol uri : List Nat)
    (max_tokens : Nat) : ContractState :=
  { admin := admin
    contract_addr := contract_addr
    name := name
    symbol := symbol
    uri := uri
    max_tokens := max_tokens
    counter := 0
    tokenOf := fun _ => none
    keyOf := fun _ => none
    owner := fun _ => none
    balance := fun _ => 0
    nonce := fun _ => none
    status := fun _ => TokenStatus.unminted
    events := [] }

/-- Modelled from the spec: the digest input of the signature guard
(spec.md section 4.1 step 1-2, and the `calculate_message_hash` helper in
test.rs): SHA-256 of the raw message bytes followed by the host XDR
encoding of the signer identity followed by the host XDR encoding of the
nonce. -/
def messageDigest (H : HostEnv) (message : List Nat) (signer : Nat)
    (nonce : Nat) : List Nat :=
  H.sha256 (message ++ H.xdrAddr signer ++ H.xdrU32 nonce)

/-- Returns the current nonce for the given public key, defaulting to 0
when absent (lib.rs `get_nonce`). -/
def get_nonce (s : ContractState) (public_key : List Nat) : Nat :=
  (s.nonce public_key).getD 0

/-- The state after the signature guard persists an accepted nonce. -/
def nonceUpd (s : ContractState) (public_key : List Nat) (nonce : Nat) :
    ContractState :=
  { s with nonce := fun k => if k = public_key then some nonce else s.nonce k }

/-- Modelled from the spec: `verify_chip_signature` of the missing
contracts/nfc-nft/src/contract.rs (spec.md section 4.1).  Recover a
public key from the digest, the signature and exactly the caller-supplied
recovery selector; fail with `InvalidSignature` unless the recovered key
equals `public_key` byte-for-byte; then require the nonce to be strictly
greater than the stored one and persist it.  The nonce write happens only
on the success path, after recovery succeeded. -/
def verify_chip_signature (H : HostEnv) (s : ContractState) (signer : Nat)
    (message signature : List Nat) (recovery_id : Nat)
    (public_key : List Nat) (nonce : Nat) :
    Except NonFungibleTokenError ContractState :=
  if H.secp256k1_recover (messageDigest H message signer nonce) signature
      recovery_id = some public_key then
    if get_nonce s public_key < nonce then
      Except.ok (nonceUpd s public_key nonce)
    else Except.error NonFungibleTokenError.InvalidSignature
  else Except.error NonFungibleTokenError.InvalidSignature

/-- Registry update performed by a successful mint: store both directions
of the chip-key/token-id mapping, mark the token minted, increment the
counter, emit the mint event, and return the assigned id. -/
def mintApply (s1 : ContractState) (public_key : List Nat) :
    ContractState × Nat :=
  ({ s1 with
      tokenOf := fun k => if k = public_key then some s1.counter else s1.tokenOf k
      keyOf := fun t => if t = s1.counter then some public_key else s1.keyOf t
      status := fun t => if t = s1.counter then TokenStatus.minted else s1.status t
      counter := s1.counter + 1
      events := s1.events ++ [Event.mintEv s1.counter] }, s1.counter)

/-- Modelled from the spec: `mint` of the missing
contracts/nfc-nft/src/contract.rs (spec.md section 4.3).  Admin
authorization is an external capability (tests run with mocked auths);
the admin is the signer identity bound into the digest.  The guard runs
first; then the registry fails with `TokenIDsAreDepleted` at the cap,
with `TokenAlreadyMinted` on a repeated key, and otherwise assigns the
counter as the id. -/
def mint (H : HostEnv) (s : ContractState) (message signature : List Nat)
    (recovery_id : Nat) (public_key : List Nat) (nonce : Nat) :
    Except NonFungibleTokenError (ContractState × Nat) :=
  match verify_chip_signature H s s.admin message signature recovery_id
      public_key nonce with
  | Except.error e => Except.error e
  | Except.ok s1 =>
    if s1.max_tokens ≤ s1.counter then
      Except.error NonFungibleTokenError.TokenIDsAreDepleted
    else
      match s1.tokenOf public_key with
      | some _ => Except.error NonFungibleTokenError.TokenAlreadyMinted
      | none => Except.ok (mintApply s1 public_key)

/-- State update performed by a successful claim: set the owner,
increment the claimant's balance, mark the token claimed, emit the claim
event. -/
def claimApply (s1 : ContractState) (claimant tid : Nat) : ContractState :=
  { s1 with
      owner := fun t => if t = tid then some claimant else s1.owner t
      balance := fun a => if a = claimant then s1.balance claimant + 1 else s1.balance a
      status := fun t => if t = tid then TokenStatus.claimed else s1.status t
      events := s1.events ++ [Event.claimEv claimant tid] }

/-- Modelled from the spec: `claim` of the missing
contracts/nfc-nft/src/contract.rs (spec.md section 4.3).  The guard runs
with the claimant as signer; the public key must resolve to a token in
the minted-unclaimed state; an already claimed (or quarantined) token
fails with `TokenAlreadyClaimed`, an unresolvable key with
`NonExistentToken`. -/
def claim (H : HostEnv) (s : ContractState) (claimant : Nat)
    (message signature : List Nat) (recovery_id : Nat)
    (public_key : List Nat) (nonce : Nat) :
    Except NonFungibleTokenError (ContractState × Nat) :=
  match verify_chip_signature H s claimant message signature recovery_id
      public_key nonce with
  | Except.error e => Except.error e
  | Except.ok s1 =>
    match s1.tokenOf public_key with
    | none => Except.error NonFungibleTokenError.NonExistentToken
    | some tid =>
      match s1.status tid with
      | TokenStatus.minted => Except.ok (claimApply s1 claimant tid, tid)
      | TokenStatus.unminted => Except.error NonFungibleTokenError.NonExistentToken
      | TokenStatus.claimed => Except.error NonFungibleTokenError.TokenAlreadyClaimed
      | TokenStatus.clawedBack => Except.error NonFungibleTokenError.TokenAlreadyClaimed

/-- State update performed by a successful transfer: decrement the
sender's balance, increment the recipient's, set the owner, emit the
transfer event. -/
def transferApply (s1 : ContractState) (fromA toA tid : Nat) : ContractState :=
  { s1 with
      owner := fun t => if t = tid then some toA else s1.owner t
      balance := fun a =>
        if a = toA then
          (if toA = fromA then s1.balance fromA - 1 else s1.balance a) + 1
        else if a = fromA then s1.balance fromA - 1
        else s1.balance a
      events := s1.events ++ [Event.transferEv fromA toA tid] }

/-- Modelled from the spec: `transfer` of the missing
contracts/nfc-nft/src/contract.rs (spec.md section 4.3 and the trait
documentation in lib.rs).  The ownership check comes first, so a
non-owner caller fails with `IncorrectOwner` regardless of the
signature; the token must be in the claimed state (a quarantined token
cannot move); the supplied public key must equal the chip key bound to
the token; finally the guard runs with the sender as signer. -/
def transfer (H : HostEnv) (s : ContractState) (fromA toA tid : Nat)
    (message signature : List Nat) (recovery_id : Nat)
    (public_key : List Nat) (nonce : Nat) :
    Except NonFungibleTokenError ContractState :=
  match s.owner tid with
  | none => Except.error NonFungibleTokenError.NonExistentToken
  | some o =>
    if fromA = o then
      match s.status tid with
      | TokenStatus.claimed =>
        match s.keyOf tid with
        | none => Except.error NonFungibleTokenError.NonExistentToken
        | some k =>
          if k = public_key then
            match verify_chip_signature H s fromA message signature
                recovery_id public_key nonce with
            | Except.error e => Except.error e
            | Except.ok s1 => Except.ok (transferApply s1 fromA toA tid)
          else Except.error NonFungibleTokenError.InvalidSignature
      | _ => Except.error NonFungibleTokenError.TokenNotClaimed
    else Except.error NonFungibleTokenError.IncorrectOwner

/-- State update performed by a successful clawback: the owner field is
set to the contract's own holding address, the prior owner's balance is
decremented without incrementing any other balance, and the token is
marked permanently quarantined.  No clawback event struct is declared in
events.rs, so none is emitted. -/
def clawApply (s : ContractState) (tid o : Nat) : ContractState :=
  { s with
      owner := fun t => if t = tid then some s.contract_addr else s.owner t
      balance := fun a => if a = o then s.balance o - 1 else s.balance a
      status := fun t => if t = tid then TokenStatus.clawedBack else s.status t }

/-- Modelled from the spec: `clawback` of the missing
contracts/nfc-nft/src/contract.rs (spec.md section 4.3): admin-only (the
authorization is an external capability), requires the token to be in
the claimed state, fails with `NonExistentToken` for an unminted token
and `TokenNotClaimed` for a minted-but-unclaimed or already quarantined
one. -/
def clawback (s : ContractState) (tid : Nat) :
    Except NonFungibleTokenError ContractState :=
  match s.status tid with
  | TokenStatus.claimed =>
    match s.owner tid with
    | some o => Except.ok (clawApply s tid o)
    | none => Except.error NonFungibleTokenError.NonExistentToken
  | TokenStatus.unminted => Except.error NonFungibleTokenError.NonExistentToken
  | TokenStatus.minted => Except.error NonFungibleTokenError.TokenNotClaimed
  | TokenStatus.clawedBack => Except.error NonFungibleTokenError.TokenNotClaimed

/-- Query `owner_of` (lib.rs): fails with `NonExistentToken` when the
token has no owner, i.e. when it was never minted or is still
unclaimed. -/
def owner_of (s : ContractState) (tid : Nat) :
    Except NonFungibleTokenError Nat :=
  match s.owner tid with
  | some o => Except.ok o
  | none => Except.error NonFungibleTokenError.NonExistentToken

/-- Query `token_id` (lib.rs): the token id mapped to a chip public
key. -/
def token_id (s : ContractState) (public_key : List Nat) :
    Except NonFungibleTokenError Nat :=
  match s.tokenOf public_key with
  | some t => Except.ok t
  | none => Except.error NonFungibleTokenError.NonExistentToken

/-- Query `public_key` (lib.rs): the chip public key bound to a token
id. -/
def public_key (s : ContractState) (tid : Nat) :
    Except NonFungibleTokenError (List Nat) :=
  match s.keyOf tid with
  | some k => Except.ok k
  | none => Except.error NonFungibleTokenError.NonExistentToken

/-- Query `next_token_id` (lib.rs). -/
def next_token_id (s : ContractState) : Nat := s.counter

/-- Query `balance` (lib.rs). -/
def balance_of (s : ContractState) (owner : Nat) : Nat := s.balance owner

/-- Modelled from the spec: the decimal encoder `u32_to_decimal_bytes`
of the missing contracts/nfc-nft/src/contract.rs (spec.md section 4.4,
exercised by `test_u64_to_decimal_bytes` in test.rs): the ASCII decimal
digit bytes of the value, most significant first, the single byte 48
(the character 0) for the value 0. -/
def u32_to_decimal_bytes (v : Nat) : List Nat :=
  if v = 0 then [48] else ((Nat.digits 10 v).reverse.map (fun d => d + 48))

/-- Query `token_uri` (lib.rs): base URI, a slash (byte 47), then the
decimal encoding of the id; fails for an unminted token. -/
def token_uri (s : ContractState) (tid : Nat) :
    Except NonFungibleTokenError (List Nat) :=
  match s.keyOf tid with
  | some _ => Except.ok (s.uri ++ 47 :: u32_to_decimal_bytes tid)
  | none => Except.error NonFungibleTokenError.NonExistentToken

/-- The four mutating entry points, as trace alphabet. -/
inductive Op where
  | opMint (message signature : List Nat) (recovery_id : Nat)
      (public_key : List Nat) (nonce : Nat)
  | opClaim (claimant : Nat) (message signature : List Nat)
      (recovery_id : Nat) (public_key : List Nat) (nonce : Nat)
  | opTransfer (fromA toA tid : Nat) (message signature : List Nat)
      (recovery_id : Nat) (public_key : List Nat) (nonce : Nat)
  | opClawback (tid : Nat)

/-- One mutating call. -/
def step (H : HostEnv) (s : ContractState) :
    Op → Except NonFungibleTokenError ContractState
  | Op.opMint msg sig rid pk n => (mint H s msg sig rid pk n).map Prod.fst
  | Op.opClaim cl msg sig rid pk n => (claim H s cl msg sig rid pk n).map Prod.fst
  | Op.opTransfer f t tid msg sig rid pk n => transfer H s f t tid msg sig rid pk n
  | Op.opClawback tid => clawback s tid

/-- A failed call reverts atomically: the state is unchanged. -/
def applyOp (H : HostEnv) (s : ContractState) (op : Op) : ContractState :=
  match step H s op with
  | Except.ok s' => s'
  | Except.error _ => s

/-- Execute a trace of calls. -/
def run (H : HostEnv) (s : ContractState) : List Op → ContractState
  | [] => s
  | op :: rest => run H (applyOp H s op) rest

/-- Number of successful mints in a trace. -/
def mintSuccesses (H : HostEnv) (s : ContractState) : List Op → Nat
  | [] => 0
  | op :: rest =>
    (match op, step H s op with
     | Op.opMint _ _ _ _ _, Except.ok _ => 1
     | _, _ => 0) + mintSuccesses H (applyOp H s op) rest

/-- Number of tokens currently in the claimed state. -/
def claimedCount (s : ContractState) : Nat :=
  ((Finset.range s.counter).filter
    (fun tid => s.status tid = TokenStatus.claimed)).card

/-- Number of claimed tokens currently owned by an address. -/
def ownedCount (s : ContractState) (a : Nat) : Nat :=
  ((Finset.range s.counter).filter
    (fun tid => s.status tid = TokenStatus.claimed ∧ s.owner tid = some a)).card

/-- The state invariant maintained by every entry point: the counter is
capped, the key/id mapping is a bijection, ids below the counter are
exactly the minted ones, owners exist exactly for claimed or quarantined
tokens, and each balance counts the claimed tokens owned. -/
def Inv (s : ContractState) : Prop :=
  s.counter ≤ s.max_tokens ∧
  (∀ pk tid, s.tokenOf pk = some tid ↔ s.keyOf tid = some pk) ∧
  (∀ tid, (s.keyOf tid).isSome = true ↔ tid < s.counter) ∧
  (∀ tid, s.status tid ≠ TokenStatus.unminted ↔ tid < s.counter) ∧
  (∀ tid, (s.owner tid).isSome = true ↔
    (s.status tid = TokenStatus.claimed ∨
      s.status tid = TokenStatus.clawedBack)) ∧
  (∀ a, s.balance a = ownedCount s a)

/-- A concrete 65-byte-key stand-in used to evaluate the development on
closed inputs. -/
def chipKey : List Nat := [7]

/-- A concrete host environment whose recovery always returns `chipKey`,
used to evaluate the development on closed inputs. -/
def testHost : HostEnv :=
  { sha256 := fun l => l
    secp256k1_recover := fun _ _ _ => some chipKey
    xdrAddr := fun a => [a]
    xdrU32 := fun n => [n] }

/-- A concrete freshly constructed contract: admin 1, contract address 2,
base URI byte [3], cap 10. -/
def testInit : ContractState := initState 1 2 [] [] [3] 10

/-- A concrete freshly constructed contract with cap 1. -/
def testInit1 : ContractState := initState 1 2 [] [] [3] 1

/-- A trace that mints token 0 to `chipKey`. -/
def opsMinted : List Op := [Op.opMint [] [] 0 chipKey 1]

/-- The state after minting token 0. -/
def sMinted : ContractState := run testHost testInit opsMinted

/-- A trace that mints token 0 and has address 5 claim it. -/
def opsClaimed : List Op :=
  [Op.opMint [] [] 0 chipKey 1, Op.opClaim 5 [] [] 0 chipKey 2]

/-- The state after mint and claim of token 0. -/
def sClaimed : ContractState := run testHost testInit opsClaimed

/-- A trace that mints, claims, then claws back token 0. -/
def opsClawed : List Op := opsClaimed ++ [Op.opClawback 0]

/-- The state after token 0 has been quarantined by clawback. -/
def sClawed : ContractState := run testHost testInit opsClawed

/-- A one-mint trace that exhausts the cap-1 contract. -/
def opsFull : List Op := [Op.opMint [] [] 0 chipKey 1]

/-- The cap-1 contract with its only token minted. -/
def sFull : ContractState := run testHost testInit1 opsFull


@[simp] theorem nonceUpd_admin (s : ContractState) (pk : List Nat) (n : Nat) :
    (nonceUpd s pk n).admin = s.admin := rfl

@[simp] theorem nonceUpd_contract_addr (s : ContractState) (pk : List Nat) (n : Nat) :
    (nonceUpd s pk n).contract_addr = s.contract_addr := rfl

@[simp] theorem nonceUpd_uri (s : ContractState) (pk : List Nat) (n : Nat) :
    (nonceUpd s pk n).uri = s.uri := rfl

@[simp] theorem nonceUpd_max_tokens (s : ContractState) (pk : List Nat) (n : Nat) :
    (nonceUpd s pk n).max_tokens = s.max_tokens := rfl

@[simp] theorem nonceUpd_counter (s : ContractState) (pk : List Nat) (n : Nat) :
    (nonceUpd s pk n).counter = s.counter := rfl

@[simp] theorem nonceUpd_tokenOf (s : ContractState) (pk : List Nat) (n : Nat) :
    (nonceUpd s pk n).tokenOf = s.tokenOf := rfl

@[simp] theorem nonceUpd_keyOf (s : ContractState) (pk : List Nat) (n : Nat) :
    (nonceUpd s pk n).keyOf = s.keyOf := rfl

@[simp] theorem nonceUpd_owner (s : ContractState) (pk : List Nat) (n : Nat) :
    (nonceUpd s pk n).owner = s.owner := rfl

@[simp] theorem nonceUpd_balance (s : ContractState) (pk : List Nat) (n : Nat) :
    (nonceUpd s pk n).balance = s.balance := rfl

@[simp] theorem nonceUpd_status (s : ContractState) (pk : List Nat) (n : Nat) :
    (nonceUpd s pk n).status = s.status := rfl

@[simp] theorem nonceUpd_events (s : ContractState) (pk : List Nat) (n : Nat) :
    (nonceUpd s pk n).events = s.events := rfl

@[simp] theorem get_nonce_nonceUpd_self (s : ContractState) (pk : List Nat) (n : Nat) :
    get_nonce (nonceUpd s pk n) pk = n := by
  simp [get_nonce, nonceUpd]

/-- Characterization of the success path of the signature guard. -/
theorem verify_ok_iff (H : HostEnv) (s s' : ContractState) (signer : Nat)
    (message signature : List Nat) (recovery_id : Nat)
    (public_key : List Nat) (nonce : Nat) :
    verify_chip_signature H s signer message signature recovery_id
        public_key nonce = Except.ok s' ↔
      (H.secp256k1_recover (messageDigest H message signer nonce) signature
          recovery_id = some public_key ∧
        get_nonce s public_key < nonce ∧ s' = nonceUpd s public_key nonce) := by
  unfold verify_chip_signature
  split
  · split
    · constructor
      · intro h
        injection h with h
        exact ⟨by assumption, by assumption, h.symm⟩
      · rintro ⟨-, -, rfl⟩
        rfl
    · constructor
      · intro h; cases h
      · rintro ⟨-, h, -⟩
        exact absurd h (by assumption)
  · constructor
    · intro h; cases h
    · rintro ⟨h, -, -⟩
      exact absurd h (by assumption)

/-- Every failure of the signature guard is `InvalidSignature`. -/
theorem verify_error_elim (H : HostEnv) (s : ContractState) (signer : Nat)
    (message signature : List Nat) (recovery_id : Nat)
    (public_key : List Nat) (nonce : Nat) (e : NonFungibleTokenError)
    (h : verify_chip_signature H s signer message signature recovery_id
        public_key nonce = Except.error e) :
    e = NonFungibleTokenError.InvalidSignature := by
  unfold verify_chip_signature at h
  split at h
  · split at h
    · cases h
    · injection h with h; exact h.symm
  · injection h with h; exact h.symm

/-- A reused (non-increasing) nonce always makes the guard fail with
`InvalidSignature`. -/
theorem verify_stale_nonce (H : HostEnv) (s : ContractState) (signer : Nat)
    (message signature : List Nat) (recovery_id : Nat)
    (public_key : List Nat) (nonce : Nat) (h : nonce ≤ get_nonce s public_key) :
    verify_chip_signature H s signer message signature recovery_id
        public_key nonce =
      Except.error NonFungibleTokenError.InvalidSignature := by
  unfold verify_chip_signature
  split
  · split
    · omega
    · rfl
  · rfl

/-- Characterization of a successful mint. -/
theorem mint_ok_iff (H : HostEnv) (s s' : ContractState)
    (message signature : List Nat) (recovery_id : Nat)
    (public_key : List Nat) (nonce tid : Nat) :
    mint H s message signature recovery_id public_key nonce
        = Except.ok (s', tid) ↔
      (H.secp256k1_recover (messageDigest H message s.admin nonce) signature
          recovery_id = some public_key ∧
        get_nonce s public_key < nonce ∧
        s.counter < s.max_tokens ∧
        s.tokenOf public_key = none ∧
        tid = s.counter ∧
        s' = (mintApply (nonceUpd s public_key nonce) public_key).1) := by
  unfold mint
  constructor
  · intro h
    rcases hv : verify_chip_signature H s s.admin message signature
        recovery_id public_key nonce with e | s1
    · simp only [hv] at h
      cases h
    · obtain ⟨hrec, hn, rfl⟩ := (verify_ok_iff H s s1 s.admin message
        signature recovery_id public_key nonce).mp hv
      simp only [hv, nonceUpd_max_tokens, nonceUpd_counter,
        nonceUpd_tokenOf] at h
      by_cases hcap : s.max_tokens ≤ s.counter
      · simp only [if_pos hcap] at h
        cases h
      · simp only [if_neg hcap] at h
        rcases ht : s.tokenOf public_key with _ | t
        · simp only [ht] at h
          injection h with h
          refine ⟨hrec, hn, by omega, rfl, ?_, ?_⟩
          · exact (congrArg Prod.snd h).symm
          · exact (congrArg Prod.fst h).symm
        · simp only [ht] at h
          cases h
  · rintro ⟨hrec, hn, hcap, ht, rfl, rfl⟩
    have hv := (verify_ok_iff H s (nonceUpd s public_key nonce) s.admin
      message signature recovery_id public_key nonce).mpr ⟨hrec, hn, rfl⟩
    simp only [hv, nonceUpd_max_tokens, nonceUpd_counter, nonceUpd_tokenOf,
      if_neg (by omega : ¬ s.max_tokens ≤ s.counter), ht]
    rfl

/-- A mint that fails through the guard propagates `InvalidSignature`. -/
theorem mint_guard_error (H : HostEnv) (s : ContractState)
    (message signature : List Nat) (recovery_id : Nat)
    (public_key : List Nat) (nonce : Nat)
    (h : verify_chip_signature H s s.admin message signature recovery_id
        public_key nonce = Except.error NonFungibleTokenError.InvalidSignature) :
    mint H s message signature recovery_id public_key nonce
      = Except.error NonFungibleTokenError.InvalidSignature := by
  unfold mint
  simp only [h]

/-- A mint whose guard succeeds fails with `TokenIDsAreDepleted` at the
cap. -/
theorem mint_depleted (H : HostEnv) (s : ContractState)
    (message signature : List Nat) (recovery_id : Nat)
    (public_key : List Nat) (nonce : Nat)
    (hrec : H.secp256k1_recover (messageDigest H message s.admin nonce)
        signature recovery_id = some public_key)
    (hn : get_nonce s public_key < nonce)
    (hcap : s.max_tokens ≤ s.counter) :
    mint H s message signature recovery_id public_key nonce
      = Except.error NonFungibleTokenError.TokenIDsAreDepleted := by
  unfold mint
  have hv := (verify_ok_iff H s (nonceUpd s public_key nonce) s.admin
    message signature recovery_id public_key nonce).mpr ⟨hrec, hn, rfl⟩
  simp only [hv, nonceUpd_max_tokens, nonceUpd_counter, if_pos hcap]

/-- A mint whose guard succeeds below the cap fails with
`TokenAlreadyMinted` on an already mapped public key. -/
theorem mint_already_minted (H : HostEnv) (s : ContractState)
    (message signature : List Nat) (recovery_id : Nat)
    (public_key : List Nat) (nonce t : Nat)
    (hrec : H.secp256k1_recover (messageDigest H message s.admin nonce)
        signature recovery_id = some public_key)
    (hn : get_nonce s public_key < nonce)
    (hcap : s.counter < s.max_tokens)
    (ht : s.tokenOf public_key = some t) :
    mint H s message signature recovery_id public_key nonce
      = Except.error NonFungibleTokenError.TokenAlreadyMinted := by
  unfold mint
  have hv := (verify_ok_iff H s (nonceUpd s public_key nonce) s.admin
    message signature recovery_id public_key nonce).mpr ⟨hrec, hn, rfl⟩
  simp only [hv, nonceUpd_max_tokens, nonceUpd_counter, nonceUpd_tokenOf,
    if_neg (by omega : ¬ s.max_tokens ≤ s.counter), ht]

/-- Characterization of a successful claim. -/
theorem claim_ok_iff (H : HostEnv) (s s' : ContractState) (claimant : Nat)
    (message signature : List Nat) (recovery_id : Nat)
    (public_key : List Nat) (nonce tid : Nat) :
    claim H s claimant message signature recovery_id public_key nonce
        = Except.ok (s', tid) ↔
      (H.secp256k1_recover (messageDigest H message claimant nonce) signature
          recovery_id = some public_key ∧
        get_nonce s public_key < nonce ∧
        s.tokenOf public_key = some tid ∧
        s.status tid = TokenStatus.minted ∧
        s' = claimApply (nonceUpd s public_key nonce) claimant tid) := by
  unfold claim
  constructor
  · intro h
    rcases hv : verify_chip_signature H s claimant message signature
        recovery_id public_key nonce with e | s1
    · simp only [hv] at h
      cases h
    · obtain ⟨hrec, hn, rfl⟩ := (verify_ok_iff H s s1 claimant message
        signature recovery_id public_key nonce).mp hv
      simp only [hv, nonceUpd_tokenOf, nonceUpd_status] at h
      rcases ht : s.tokenOf public_key with _ | t
      · simp only [ht] at h
        cases h
      · simp only [ht] at h
        rcases hst : s.status t with _ | _ | _ | _
        · simp only [hst] at h
          cases h
        · simp only [hst] at h
          injection h with h
          have h2 : t = tid := congrArg Prod.snd h
          subst h2
          exact ⟨hrec, hn, rfl, hst, (congrArg Prod.fst h).symm⟩
        · simp only [hst] at h
          cases h
        · simp only [hst] at h
          cases h
  · rintro ⟨hrec, hn, ht, hst, rfl⟩
    have hv := (verify_ok_iff H s (nonceUpd s public_key nonce) claimant
      message signature recovery_id public_key nonce).mpr ⟨hrec, hn, rfl⟩
    simp only [hv, nonceUpd_tokenOf, nonceUpd_status, ht, hst]

/-- Characterization of a successful transfer. -/
theorem transfer_ok_iff (H : HostEnv) (s s' : ContractState)
    (fromA toA tid : Nat) (message signature : List Nat) (recovery_id : Nat)
    (public_key : List Nat) (nonce : Nat) :
    transfer H s fromA toA tid message signature recovery_id public_key
        nonce = Except.ok s' ↔
      (s.owner tid = some fromA ∧
        s.status tid = TokenStatus.claimed ∧
        s.keyOf tid = some public_key ∧
        H.secp256k1_recover (messageDigest H message fromA nonce) signature
          recovery_id = some public_key ∧
        get_nonce s public_key < nonce ∧
        s' = transferApply (nonceUpd s public_key nonce) fromA toA tid) := by
  unfold transfer
  constructor
  · intro h
    rcases ho : s.owner tid with _ | o
    · simp only [ho] at h
      cases h
    · simp only [ho] at h
      by_cases hf : fromA = o
      · subst hf
        simp only [if_pos (rfl : fromA = fromA)] at h
        rcases hst : s.status tid with _ | _ | _ | _
        · simp only [hst] at h
          cases h
        · simp only [hst] at h
          cases h
        · simp only [hst] at h
          rcases hk : s.keyOf tid with _ | k
          · simp only [hk] at h
            cases h
          · simp only [hk] at h
            by_cases hkp : k = public_key
            · subst hkp
              simp only [if_pos (rfl : k = k)] at h
              rcases hv : verify_chip_signature H s fromA message signature
                  recovery_id k nonce with e | s1
              · simp only [hv] at h
                cases h
              · obtain ⟨hrec, hn, rfl⟩ := (verify_ok_iff H s s1 fromA
                  message signature recovery_id k nonce).mp hv
                simp only [hv] at h
                injection h with h
                exact ⟨rfl, rfl, rfl, hrec, hn, h.symm⟩
            · simp only [if_neg hkp] at h
              cases h
        · simp only [hst] at h
          cases h
      · simp only [if_neg hf] at h
        cases h
  · rintro ⟨ho, hst, hk, hrec, hn, rfl⟩
    have hv := (verify_ok_iff H s (nonceUpd s public_key nonce) fromA
      message signature recovery_id public_key nonce).mpr ⟨hrec, hn, rfl⟩
    simp only [ho, if_pos (rfl : fromA = fromA), hst, hk,
      if_pos (rfl : public_key = public_key), hv, if_true]

/-- A transfer from anyone but the recorded owner fails with
`IncorrectOwner`, whatever the signature. -/
theorem transfer_incorrect_owner (H : HostEnv) (s : ContractState)
    (fromA toA tid o : Nat) (message signature : List Nat)
    (recovery_id : Nat) (public_key : List Nat) (nonce : Nat)
    (ho : s.owner tid = some o) (hf : fromA ≠ o) :
    transfer H s fromA toA tid message signature recovery_id public_key
      nonce = Except.error NonFungibleTokenError.IncorrectOwner := by
  unfold transfer
  simp only [ho, if_neg hf]

/-- Characterization of a successful clawback. -/
theorem clawback_ok_iff (s s' : ContractState) (tid : Nat) :
    clawback s tid = Except.ok s' ↔
      (s.status tid = TokenStatus.claimed ∧
        ∃ o, s.owner tid = some o ∧ s' = clawApply s tid o) := by
  unfold clawback
  constructor
  · intro h
    rcases hst : s.status tid with _ | _ | _ | _
    · simp only [hst] at h
      cases h
    · simp only [hst] at h
      cases h
    · simp only [hst] at h
      rcases ho : s.owner tid with _ | o
      · simp only [ho] at h
        cases h
      · simp only [ho] at h
        injection h with h
        exact ⟨rfl, o, rfl, h.symm⟩
    · simp only [hst] at h
      cases h
  · rintro ⟨hst, o, ho, rfl⟩
    simp only [hst, ho]

@[simp] theorem mintApply_snd (s1 : ContractState) (pk : List Nat) :
    (mintApply s1 pk).2 = s1.counter := rfl

@[simp] theorem mintApply_admin (s1 : ContractState) (pk : List Nat) :
    (mintApply s1 pk).1.admin = s1.admin := rfl

@[simp] theorem mintApply_contract_addr (s1 : ContractState) (pk : List Nat) :
    (mintApply s1 pk).1.contract_addr = s1.contract_addr := rfl

@[simp] theorem mintApply_uri (s1 : ContractState) (pk : List Nat) :
    (mintApply s1 pk).1.uri = s1.uri := rfl

@[simp] theorem mintApply_max_tokens (s1 : ContractState) (pk : List Nat) :
    (mintApply s1 pk).1.max_tokens = s1.max_tokens := rfl

@[simp] theorem mintApply_counter (s1 : ContractState) (pk : List Nat) :
    (mintApply s1 pk).1.counter = s1.counter + 1 := rfl

@[simp] theorem mintApply_tokenOf (s1 : ContractState) (pk k : List Nat) :
    (mintApply s1 pk).1.tokenOf k =
      if k = pk then some s1.counter else s1.tokenOf k := rfl

@[simp] theorem mintApply_keyOf (s1 : ContractState) (pk : List Nat) (t : Nat) :
    (mintApply s1 pk).1.keyOf t =
      if t = s1.counter then some pk else s1.keyOf t := rfl

@[simp] theorem mintApply_owner (s1 : ContractState) (pk : List Nat) :
    (mintApply s1 pk).1.owner = s1.owner := rfl

@[simp] theorem mintApply_balance (s1 : ContractState) (pk : List Nat) :
    (mintApply s1 pk).1.balance = s1.balance := rfl

@[simp] theorem mintApply_status (s1 : ContractState) (pk : List Nat) (t : Nat) :
    (mintApply s1 pk).1.status t =
      if t = s1.counter then TokenStatus.minted else s1.status t := rfl

@[simp] theorem mintApply_nonce (s1 : ContractState) (pk : List Nat) :
    (mintApply s1 pk).1.nonce = s1.nonce := rfl

@[simp] theorem mintApply_events (s1 : ContractState) (pk : List Nat) :
    (mintApply s1 pk).1.events = s1.events ++ [Event.mintEv s1.counter] := rfl

@[simp] theorem claimApply_admin (s1 : ContractState) (cl tid : Nat) :
    (claimApply s1 cl tid).admin = s1.admin := rfl

@[simp] theorem claimApply_contract_addr (s1 : ContractState) (cl tid : Nat) :
    (claimApply s1 cl tid).contract_addr = s1.contract_addr := rfl

@[simp] theorem claimApply_uri (s1 : ContractState) (cl tid : Nat) :
    (claimApply s1 cl tid).uri = s1.uri := rfl

@[simp] theorem claimApply_max_tokens (s1 : ContractState) (cl tid : Nat) :
    (claimApply s1 cl tid).max_tokens = s1.max_tokens := rfl

@[simp] theorem claimApply_counter (s1 : ContractState) (cl tid : Nat) :
    (claimApply s1 cl tid).counter = s1.counter := rfl

@[simp] theorem claimApply_tokenOf (s1 : ContractState) (cl tid : Nat) :
    (claimApply s1 cl tid).tokenOf = s1.tokenOf := rfl

@[simp] theorem claimApply_keyOf (s1 : ContractState) (cl tid : Nat) :
    (claimApply s1 cl tid).keyOf = s1.keyOf := rfl

@[simp] theorem claimApply_owner (s1 : ContractState) (cl tid t : Nat) :
    (claimApply s1 cl tid).owner t =
      if t = tid then some cl else s1.owner t := rfl

@[simp] theorem claimApply_balance (s1 : ContractState) (cl tid a : Nat) :
    (claimApply s1 cl tid).balance a =
      if a = cl then s1.balance cl + 1 else s1.balance a := rfl

@[simp] theorem claimApply_status (s1 : ContractState) (cl tid t : Nat) :
    (claimApply s1 cl tid).status t =
      if t = tid then TokenStatus.claimed else s1.status t := rfl

@[simp] theorem claimApply_nonce (s1 : ContractState) (cl tid : Nat) :
    (claimApply s1 cl tid).nonce = s1.nonce := rfl

@[simp] theorem claimApply_events (s1 : ContractState) (cl tid : Nat) :
    (claimApply s1 cl tid).events =
      s1.events ++ [Event.claimEv cl tid] := rfl

@[simp] theorem transferApply_admin (s1 : ContractState) (f t tid : Nat) :
    (transferApply s1 f t tid).admin = s1.admin := rfl

@[simp] theorem transferApply_contract_addr (s1 : ContractState) (f t tid : Nat) :
    (transferApply s1 f t tid).contract_addr = s1.contract_addr := rfl

@[simp] theorem transferApply_uri (s1 : ContractState) (f t tid : Nat) :
    (transferApply s1 f t tid).uri = s1.uri := rfl

@[simp] theorem transferApply_max_tokens (s1 : ContractState) (f t tid : Nat) :
    (transferApply s1 f t tid).max_tokens = s1.max_tokens := rfl

@[simp] theorem transferApply_counter (s1 : ContractState) (f t tid : Nat) :
    (transferApply s1 f t tid).counter = s1.counter := rfl

@[simp] theorem transferApply_tokenOf (s1 : ContractState) (f t tid : Nat) :
    (transferApply s1 f t tid).tokenOf = s1.tokenOf := rfl

@[simp] theorem transferApply_keyOf (s1 : ContractState) (f t tid : Nat) :
    (transferApply s1 f t tid).keyOf = s1.keyOf := rfl

@[simp] theorem transferApply_owner (s1 : ContractState) (f t tid x : Nat) :
    (transferApply s1 f t tid).owner x =
      if x = tid then some t else s1.owner x := rfl

@[simp] theorem transferApply_balance (s1 : ContractState) (f t tid a : Nat) :
    (transferApply s1 f t tid).balance a =
      if a = t then
        (if t = f then s1.balance f - 1 else s1.balance a) + 1
      else if a = f then s1.balance f - 1
      else s1.balance a := rfl

@[simp] theorem transferApply_status (s1 : ContractState) (f t tid : Nat) :
    (transferApply s1 f t tid).status = s1.status := rfl

@[simp] theorem transferApply_nonce (s1 : ContractState) (f t tid : Nat) :
    (transferApply s1 f t tid).nonce = s1.nonce := rfl

@[simp] theorem transferApply_events (s1 : ContractState) (f t tid : Nat) :
    (transferApply s1 f t tid).events =
      s1.events ++ [Event.transferEv f t tid] := rfl

@[simp] theorem clawApply_admin (s : ContractState) (tid o : Nat) :
    (clawApply s tid o).admin = s.admin := rfl

@[simp] theorem clawApply_contract_addr (s : ContractState) (tid o : Nat) :
    (clawApply s tid o).contract_addr = s.contract_addr := rfl

@[simp] theorem clawApply_uri (s : ContractState) (tid o : Nat) :
    (clawApply s tid o).uri = s.uri := rfl

@[simp] theorem clawApply_max_tokens (s : ContractState) (tid o : Nat) :
    (clawApply s tid o).max_tokens = s.max_tokens := rfl

@[simp] theorem clawApply_counter (s : ContractState) (tid o : Nat) :
    (clawApply s tid o).counter = s.counter := rfl

@[simp] theorem clawApply_tokenOf (s : ContractState) (tid o : Nat) :
    (clawApply s tid o).tokenOf = s.tokenOf := rfl

@[simp] theorem clawApply_keyOf (s : ContractState) (tid o : Nat) :
    (clawApply s tid o).keyOf = s.keyOf := rfl

@[simp] theorem clawApply_owner (s : ContractState) (tid o t : Nat) :
    (clawApply s tid o).owner t =
      if t = tid then some s.contract_addr else s.owner t := rfl

@[simp] theorem clawApply_balance (s : ContractState) (tid o a : Nat) :
    (clawApply s tid o).balance a =
      if a = o then s.balance o - 1 else s.balance a := rfl

@[simp] theorem clawApply_status (s : ContractState) (tid o t : Nat) :
    (clawApply s tid o).status t =
      if t = tid then TokenStatus.clawedBack else s.status t := rfl

@[simp] theorem clawApply_nonce (s : ContractState) (tid o : Nat) :
    (clawApply s tid o).nonce = s.nonce := rfl

@[simp] theorem clawApply_events (s : ContractState) (tid o : Nat) :
    (clawApply s tid o).events = s.events := rfl

/-- Counting helper: an element of the range flipping from unsatisfied to
satisfied raises the filtered count by one. -/
theorem card_filter_set_true (n t : Nat) (p q : Nat → Prop)
    [DecidablePred p] [DecidablePred q] (ht : t < n) (hpt : ¬ p t)
    (hqt : q t) (hagree : ∀ x, x ≠ t → (p x ↔ q x)) :
    ((Finset.range n).filter q).card = ((Finset.range n).filter p).card + 1 := by
  have hset : (Finset.range n).filter q = insert t ((Finset.range n).filter p) := by
    ext x
    by_cases hx : x = t
    · subst hx
      simp [Finset.mem_filter, Finset.mem_range, ht, hqt, hpt]
    · simp [Finset.mem_filter, Finset.mem_insert, hx, hagree x hx]
  rw [hset, Finset.card_insert_of_not_mem (by simp [hpt])]

/-- Counting helper: an element of the range flipping from satisfied to
unsatisfied lowers the filtered count by one. -/
theorem card_filter_set_false (n t : Nat) (p q : Nat → Prop)
    [DecidablePred p] [DecidablePred q] (ht : t < n) (hpt : p t)
    (hqt : ¬ q t) (hagree : ∀ x, x ≠ t → (p x ↔ q x)) :
    ((Finset.range n).filter p).card = ((Finset.range n).filter q).card + 1 :=
  card_filter_set_true n t q p ht hqt hpt (fun x hx => (hagree x hx).symm)

/-- Counting helper: a fresh element that does not satisfy the predicate
does not change the filtered count. -/
theorem card_filter_range_succ (n : Nat) (p : Nat → Prop) [DecidablePred p]
    (hp : ¬ p n) :
    ((Finset.range (n + 1)).filter p).card = ((Finset.range n).filter p).card := by
  rw [Finset.range_succ, Finset.filter_insert, if_neg hp]

/-- Counting helper: a satisfied element witnesses a positive count. -/
theorem one_le_card_filter (n t : Nat) (p : Nat → Prop) [DecidablePred p]
    (ht : t < n) (hpt : p t) :
    1 ≤ ((Finset.range n).filter p).card :=
  Finset.card_pos.mpr ⟨t, by simp [Finset.mem_filter, Finset.mem_range, ht, hpt]⟩

theorem inv_init (a c : Nat) (nm sy u : List Nat) (m : Nat) :
    Inv (initState a c nm sy u m) := by
  refine ⟨Nat.zero_le _, ?_, ?_, ?_, ?_, ?_⟩ <;>
    simp [initState, ownedCount]

theorem inv_mint_ok (H : HostEnv) (s s' : ContractState)
    (message signature : List Nat) (recovery_id : Nat)
    (public_key : List Nat) (nonce tid : Nat) (hInv : Inv s)
    (h : mint H s message signature recovery_id public_key nonce
      = Except.ok (s', tid)) : Inv s' := by
  obtain ⟨hcap0, hbij, hdense, hstat, hown, hbal⟩ := hInv
  obtain ⟨hrec, hn, hcap, ht, rfl, rfl⟩ := (mint_ok_iff H s s' message
    signature recovery_id public_key nonce tid).mp h
  refine ⟨?_, ?_, ?_, ?_, ?_, ?_⟩
  · simp only [mintApply_counter, nonceUpd_counter, mintApply_max_tokens,
      nonceUpd_max_tokens]
    omega
  · intro pk' tid'
    simp only [mintApply_tokenOf, nonceUpd_tokenOf, mintApply_keyOf,
      nonceUpd_keyOf, nonceUpd_counter]
    by_cases h1 : pk' = public_key
    · subst h1
      by_cases h2 : tid' = s.counter
      · subst h2
        simp
      · rw [if_pos rfl, if_neg h2]
        constructor
        · intro hx
          injection hx with hx
          exact absurd hx.symm h2
        · intro hx
          have h3 := (hbij pk' tid').mpr hx
          rw [ht] at h3
          cases h3
    · by_cases h2 : tid' = s.counter
      · subst h2
        rw [if_neg h1, if_pos rfl]
        constructor
        · intro hx
          have h3 := (hbij pk' s.counter).mp hx
          have h4 := (hdense s.counter).mp (by rw [h3]; rfl)
          omega
        · intro hx
          injection hx with hx
          exact absurd hx.symm h1
      · rw [if_neg h1, if_neg h2]
        exact hbij pk' tid'
  · intro tid'
    simp only [mintApply_keyOf, nonceUpd_keyOf, mintApply_counter,
      nonceUpd_counter]
    by_cases h2 : tid' = s.counter
    · subst h2
      simp
    · rw [if_neg h2, hdense tid']
      omega
  · intro tid'
    simp only [mintApply_status, nonceUpd_status, mintApply_counter,
      nonceUpd_counter]
    by_cases h2 : tid' = s.counter
    · subst h2
      rw [if_pos rfl]
      simp
    · rw [if_neg h2, hstat tid']
      omega
  · intro tid'
    simp only [mintApply_owner, nonceUpd_owner, mintApply_status,
      nonceUpd_status, nonceUpd_counter]
    by_cases h2 : tid' = s.counter
    · subst h2
      rw [if_pos rfl]
      constructor
      · intro hx
        have h3 := (hown s.counter).mp hx
        have h4 : s.status s.counter ≠ TokenStatus.unminted := by
          rcases h3 with h3 | h3 <;> rw [h3] <;> intro hcon <;> cases hcon
        have h5 := (hstat s.counter).mp h4
        omega
      · rintro (h3 | h3) <;> cases h3
    · rw [if_neg h2]
      exact hown tid'
  · intro a
    simp only [mintApply_balance, nonceUpd_balance]
    rw [hbal a]
    unfold ownedCount
    simp only [mintApply_counter, nonceUpd_counter, mintApply_status,
      nonceUpd_status, mintApply_owner, nonceUpd_owner]
    rw [card_filter_range_succ s.counter _ (by simp)]
    congr 1
    apply Finset.filter_congr
    intro x hx
    simp only [Finset.mem_range] at hx
    rw [if_neg (by omega : ¬ x = s.counter)]

theorem inv_claim_ok (H : HostEnv) (s s' : ContractState) (claimant : Nat)
    (message signature : List Nat) (recovery_id : Nat)
    (public_key : List Nat) (nonce tid : Nat) (hInv : Inv s)
    (h : claim H s claimant message signature recovery_id public_key nonce
      = Except.ok (s', tid)) : Inv s' := by
  obtain ⟨hcap0, hbij, hdense, hstat, hown, hbal⟩ := hInv
  obtain ⟨hrec, hn, ht, hst, rfl⟩ := (claim_ok_iff H s s' claimant message
    signature recovery_id public_key nonce tid).mp h
  have htid : tid < s.counter :=
    (hdense tid).mp (by rw [(hbij public_key tid).mp ht]; rfl)
  refine ⟨?_, ?_, ?_, ?_, ?_, ?_⟩
  · simpa using hcap0
  · intro pk' tid'
    simpa using hbij pk' tid'
  · intro tid'
    simpa using hdense tid'
  · intro tid'
    simp only [claimApply_status, nonceUpd_status, claimApply_counter,
      nonceUpd_counter]
    by_cases h2 : tid' = tid
    · subst h2
      rw [if_pos rfl]
      constructor
      · intro _; exact htid
      · intro _ hcon; cases hcon
    · rw [if_neg h2]
      exact hstat tid'
  · intro tid'
    simp only [claimApply_owner, nonceUpd_owner, claimApply_status,
      nonceUpd_status]
    by_cases h2 : tid' = tid
    · subst h2
      rw [if_pos rfl, if_pos rfl]
      simp
    · rw [if_neg h2, if_neg h2]
      exact hown tid'
  · intro a
    simp only [claimApply_balance, nonceUpd_balance]
    unfold ownedCount
    simp only [claimApply_counter, nonceUpd_counter, claimApply_status,
      nonceUpd_status, claimApply_owner, nonceUpd_owner]
    by_cases ha : a = claimant
    · subst ha
      rw [if_pos rfl, hbal a]
      unfold ownedCount
      refine (card_filter_set_true s.counter tid _ _ htid ?_ ?_ ?_).symm
      · simp [hst]
      · simp
      · intro x hx
        rw [if_neg hx, if_neg hx]
    · rw [if_neg ha, hbal a]
      unfold ownedCount
      congr 1
      apply Finset.filter_congr
      intro x _
      by_cases h2 : x = tid
      · subst h2
        rw [if_pos rfl, if_pos rfl]
        simp [hst, Ne.symm ha]
      · rw [if_neg h2, if_neg h2]

theorem inv_transfer_ok (H : HostEnv) (s s' : ContractState)
    (fromA toA tid : Nat) (message signature : List Nat)
    (recovery_id : Nat) (public_key : List Nat) (nonce : Nat) (hInv : Inv s)
    (h : transfer H s fromA toA tid message signature recovery_id
      public_key nonce = Except.ok s') : Inv s' := by
  obtain ⟨hcap0, hbij, hdense, hstat, hown, hbal⟩ := hInv
  obtain ⟨ho, hst, hk, hrec, hn, rfl⟩ := (transfer_ok_iff H s s' fromA toA
    tid message signature recovery_id public_key nonce).mp h
  have htid : tid < s.counter :=
    (hstat tid).mp (by rw [hst]; intro hcon; cases hcon)
  have hfromTrue : s.status tid = TokenStatus.claimed ∧
      s.owner tid = some fromA := ⟨hst, ho⟩
  refine ⟨?_, ?_, ?_, ?_, ?_, ?_⟩
  · simpa using hcap0
  · intro pk' tid'
    simpa using hbij pk' tid'
  · intro tid'
    simpa using hdense tid'
  · intro tid'
    simpa using hstat tid'
  · intro tid'
    simp only [transferApply_owner, nonceUpd_owner, transferApply_status,
      nonceUpd_status]
    by_cases h2 : tid' = tid
    · subst h2
      rw [if_pos rfl]
      simp [hst]
    · rw [if_neg h2]
      exact hown tid'
  · intro a
    simp only [transferApply_balance, nonceUpd_balance]
    unfold ownedCount
    simp only [transferApply_counter, nonceUpd_counter,
      transferApply_status, nonceUpd_status, transferApply_owner,
      nonceUpd_owner]
    have hposF : 1 ≤ ownedCount s fromA := by
      unfold ownedCount
      exact one_le_card_filter s.counter tid _ htid ⟨hst, ho⟩
    by_cases haT : a = toA
    · rw [if_pos haT]
      by_cases hTF : toA = fromA
      · rw [if_pos hTF]
        have haF : a = fromA := haT.trans hTF
        have hgoal : ((Finset.range s.counter).filter
            (fun x => s.status x = TokenStatus.claimed ∧
              (if x = tid then some toA else s.owner x) = some a)).card
            = ownedCount s a := by
          unfold ownedCount
          apply congrArg
          apply Finset.filter_congr
          intro x _
          by_cases h2 : x = tid
          · subst h2
            rw [if_pos rfl, hst, ho, hTF, haF]
          · rw [if_neg h2]
        rw [hgoal, ← haF]
        have hba := hbal a
        rw [← haF] at hposF
        omega
      · rw [if_neg hTF]
        have hgoal : ((Finset.range s.counter).filter
            (fun x => s.status x = TokenStatus.claimed ∧
              (if x = tid then some toA else s.owner x) = some a)).card
            = ownedCount s a + 1 := by
          unfold ownedCount
          refine card_filter_set_true s.counter tid _ _ htid ?_ ?_ ?_
          · rw [ho]
            rintro ⟨-, hcon⟩
            rw [haT] at hcon
            exact hTF (Option.some_inj.mp hcon).symm
          · exact ⟨hst, by rw [if_pos rfl, haT]⟩
          · intro x hx
            rw [if_neg hx]
        rw [hgoal, hbal a]
    · rw [if_neg haT]
      by_cases haF : a = fromA
      · rw [if_pos haF]
        have hgoal : ownedCount s a = ((Finset.range s.counter).filter
            (fun x => s.status x = TokenStatus.claimed ∧
              (if x = tid then some toA else s.owner x) = some a)).card
            + 1 := by
          unfold ownedCount
          refine card_filter_set_false s.counter tid _ _ htid ?_ ?_ ?_
          · exact ⟨hst, by rw [ho, haF]⟩
          · rintro ⟨-, hcon⟩
            rw [if_pos rfl] at hcon
            exact haT (Option.some_inj.mp hcon).symm
          · intro x hx
            rw [if_neg hx]
        rw [← haF]
        have hba := hbal a
        omega
      · rw [if_neg haF]
        have hgoal : ((Finset.range s.counter).filter
            (fun x => s.status x = TokenStatus.claimed ∧
              (if x = tid then some toA else s.owner x) = some a)).card
            = ownedCount s a := by
          unfold ownedCount
          apply congrArg
          apply Finset.filter_congr
          intro x _
          by_cases h2 : x = tid
          · subst h2
            rw [if_pos rfl, hst, ho]
            constructor
            · rintro ⟨-, hcon⟩
              exact absurd (Option.some_inj.mp hcon).symm haT
            · rintro ⟨-, hcon⟩
              exact absurd (Option.some_inj.mp hcon).symm haF
          · rw [if_neg h2]
        rw [hgoal, hbal a]

theorem inv_clawback_ok (s s' : ContractState) (tid : Nat) (hInv : Inv s)
    (h : clawback s tid = Except.ok s') : Inv s' := by
  obtain ⟨hcap0, hbij, hdense, hstat, hown, hbal⟩ := hInv
  obtain ⟨hst, o, ho, rfl⟩ := (clawback_ok_iff s s' tid).mp h
  have htid : tid < s.counter :=
    (hstat tid).mp (by rw [hst]; intro hcon; cases hcon)
  refine ⟨?_, ?_, ?_, ?_, ?_, ?_⟩
  · simpa using hcap0
  · intro pk' tid'
    simpa using hbij pk' tid'
  · intro tid'
    simpa using hdense tid'
  · intro tid'
    simp only [clawApply_status, clawApply_counter]
    by_cases h2 : tid' = tid
    · subst h2
      rw [if_pos rfl]
      constructor
      · intro _; exact htid
      · intro _ hcon; cases hcon
    · rw [if_neg h2]
      exact hstat tid'
  · intro tid'
    simp only [clawApply_owner, clawApply_status]
    by_cases h2 : tid' = tid
    · subst h2
      rw [if_pos rfl, if_pos rfl]
      simp
    · rw [if_neg h2, if_neg h2]
      exact hown tid'
  · intro a
    simp only [clawApply_balance]
    unfold ownedCount
    simp only [clawApply_counter, clawApply_status, clawApply_owner]
    by_cases ha : a = o
    · rw [if_pos ha]
      have hgoal : ownedCount s a = ((Finset.range s.counter).filter
          (fun x => (if x = tid then TokenStatus.clawedBack else s.status x)
              = TokenStatus.claimed ∧
            (if x = tid then some s.contract_addr else s.owner x)
              = some a)).card + 1 := by
        unfold ownedCount
        refine card_filter_set_false s.counter tid _ _ htid ?_ ?_ ?_
        · exact ⟨hst, by rw [ho, ha]⟩
        · rintro ⟨hcon, -⟩
          rw [if_pos rfl] at hcon
          cases hcon
        · intro x hx
          rw [if_neg hx, if_neg hx]
      rw [← ha]
      have hba := hbal a
      omega
    · rw [if_neg ha]
      have hgoal : ((Finset.range s.counter).filter
          (fun x => (if x = tid then TokenStatus.clawedBack else s.status x)
              = TokenStatus.claimed ∧
            (if x = tid then some s.contract_addr else s.owner x)
              = some a)).card = ownedCount s a := by
        unfold ownedCount
        apply congrArg
        apply Finset.filter_congr
        intro x _
        by_cases h2 : x = tid
        · subst h2
          rw [if_pos rfl, if_pos rfl, hst, ho]
          constructor
          · rintro ⟨hcon, -⟩
            cases hcon
          · rintro ⟨-, hcon⟩
            exact absurd (Option.some_inj.mp hcon).symm ha
        · rw [if_neg h2, if_neg h2]
      rw [hgoal, hbal a]

theorem inv_applyOp (H : HostEnv) (s : ContractState) (op : Op)
    (hInv : Inv s) : Inv (applyOp H s op) := by
  cases op with
  | opMint msg sig rid pk n =>
    simp only [applyOp, step]
    rcases hm : mint H s msg sig rid pk n with e | r
    · simp only [hm, Except.map]
      exact hInv
    · rcases r with ⟨s1, tid⟩
      simp only [hm, Except.map]
      exact inv_mint_ok H s s1 msg sig rid pk n tid hInv hm
  | opClaim cl msg sig rid pk n =>
    simp only [applyOp, step]
    rcases hm : claim H s cl msg sig rid pk n with e | r
    · simp only [hm, Except.map]
      exact hInv
    · rcases r with ⟨s1, tid⟩
      simp only [hm, Except.map]
      exact inv_claim_ok H s s1 cl msg sig rid pk n tid hInv hm
  | opTransfer f t tid msg sig rid pk n =>
    simp only [applyOp, step]
    rcases hm : transfer H s f t tid msg sig rid pk n with e | s1
    · simp only [hm]
      exact hInv
    · simp only [hm]
      exact inv_transfer_ok H s s1 f t tid msg sig rid pk n hInv hm
  | opClawback tid =>
    simp only [applyOp, step]
    rcases hm : clawback s tid with e | s1
    · simp only [hm]
      exact hInv
    · simp only [hm]
      exact inv_clawback_ok s s1 tid hInv hm

theorem inv_run (H : HostEnv) (s : ContractState) (ops : List Op)
    (hInv : Inv s) : Inv (run H s ops) := by
  induction ops generalizing s with
  | nil => exact hInv
  | cons op rest ih => exact ih (applyOp H s op) (inv_applyOp H s op hInv)

theorem applyOp_frame (H : HostEnv) (s : ContractState) (op : Op) :
    (applyOp H s op).admin = s.admin ∧
    (applyOp H s op).contract_addr = s.contract_addr ∧
    (applyOp H s op).uri = s.uri ∧
    (applyOp H s op).max_tokens = s.max_tokens := by
  cases op with
  | opMint msg sig rid pk n =>
    simp only [applyOp, step]
    rcases hm : mint H s msg sig rid pk n with e | r
    · simp only [hm, Except.map]
      simp
    · rcases r with ⟨s1, tid⟩
      obtain ⟨-, -, -, -, -, rfl⟩ :=
        (mint_ok_iff H s s1 msg sig rid pk n tid).mp hm
      simp only [hm, Except.map]
      simp
  | opClaim cl msg sig rid pk n =>
    simp only [applyOp, step]
    rcases hm : claim H s cl msg sig rid pk n with e | r
    · simp only [hm, Except.map]
      simp
    · rcases r with ⟨s1, tid⟩
      obtain ⟨-, -, -, -, rfl⟩ :=
        (claim_ok_iff H s s1 cl msg sig rid pk n tid).mp hm
      simp only [hm, Except.map]
      simp
  | opTransfer f t tid msg sig rid pk n =>
    simp only [applyOp, step]
    rcases hm : transfer H s f t tid msg sig rid pk n with e | s1
    · simp only [hm]
      simp
    · obtain ⟨-, -, -, -, -, rfl⟩ :=
        (transfer_ok_iff H s s1 f t tid msg sig rid pk n).mp hm
      simp only [hm]
      simp
  | opClawback tid =>
    simp only [applyOp, step]
    rcases hm : clawback s tid with e | s1
    · simp only [hm]
      simp
    · obtain ⟨-, o, -, rfl⟩ := (clawback_ok_iff s s1 tid).mp hm
      simp only [hm]
      simp

theorem run_frame (H : HostEnv) (s : ContractState) (ops : List Op) :
    (run H s ops).admin = s.admin ∧
    (run H s ops).contract_addr = s.contract_addr ∧
    (run H s ops).uri = s.uri ∧
    (run H s ops).max_tokens = s.max_tokens := by
  induction ops generalizing s with
  | nil => exact ⟨rfl, rfl, rfl, rfl⟩
  | cons op rest ih =>
    obtain ⟨h1, h2, h3, h4⟩ := ih (applyOp H s op)
    obtain ⟨g1, g2, g3, g4⟩ := applyOp_frame H s op
    exact ⟨h1.trans g1, h2.trans g2, h3.trans g3, h4.trans g4⟩

theorem counter_run (H : HostEnv) (s : ContractState) (ops : List Op) :
    (run H s ops).counter = s.counter + mintSuccesses H s ops := by
  induction ops generalizing s with
  | nil => simp [run, mintSuccesses]
  | cons op rest ih =>
    cases op with
    | opMint msg sig rid pk n =>
      simp only [run, mintSuccesses, applyOp, step]
      rcases hm : mint H s msg sig rid pk n with e | r
      · simp only [hm, Except.map]
        rw [ih s]
        omega
      · rcases r with ⟨s1, tid⟩
        obtain ⟨-, -, -, -, -, hs1⟩ :=
          (mint_ok_iff H s s1 msg sig rid pk n tid).mp hm
        subst hs1
        simp only [hm, Except.map]
        rw [ih]
        simp only [mintApply_counter, nonceUpd_counter]
        omega
    | opClaim cl msg sig rid pk n =>
      simp only [run, mintSuccesses, applyOp, step]
      rcases hm : claim H s cl msg sig rid pk n with e | r
      · simp only [hm, Except.map]
        rw [ih s]
        omega
      · rcases r with ⟨s1, tid⟩
        obtain ⟨-, -, -, -, hs1⟩ :=
          (claim_ok_iff H s s1 cl msg sig rid pk n tid).mp hm
        subst hs1
        simp only [hm, Except.map]
        rw [ih]
        simp only [claimApply_counter, nonceUpd_counter]
        omega
    | opTransfer f t tid msg sig rid pk n =>
      simp only [run, mintSuccesses, applyOp, step]
      rcases hm : transfer H s f t tid msg sig rid pk n with e | s1
      · simp only [hm]
        rw [ih s]
        omega
      · obtain ⟨-, -, -, -, -, hs1⟩ :=
          (transfer_ok_iff H s s1 f t tid msg sig rid pk n).mp hm
        subst hs1
        simp only [hm]
        rw [ih]
        simp only [transferApply_counter, nonceUpd_counter]
        omega
    | opClawback tid =>
      simp only [run, mintSuccesses, applyOp, step]
      rcases hm : clawback s tid with e | s1
      · simp only [hm]
        rw [ih s]
        omega
      · obtain ⟨-, o, -, hs1⟩ := (clawback_ok_iff s s1 tid).mp hm
        subst hs1
        simp only [hm]
        rw [ih]
        simp only [clawApply_counter]
        omega

theorem clawed_permanent_applyOp (H : HostEnv) (s : ContractState) (op : Op)
    (tid : Nat) (hc : s.status tid = TokenStatus.clawedBack)
    (ht : tid < s.counter) :
    (applyOp H s op).status tid = TokenStatus.clawedBack ∧
      tid < (applyOp H s op).counter := by
  cases op with
  | opMint msg sig rid pk n =>
    simp only [applyOp, step]
    rcases hm : mint H s msg sig rid pk n with e | r
    · simp only [hm, Except.map]
      exact ⟨hc, ht⟩
    · rcases r with ⟨s1, t⟩
      obtain ⟨-, -, -, -, -, rfl⟩ :=
        (mint_ok_iff H s s1 msg sig rid pk n t).mp hm
      simp only [hm, Except.map, mintApply_status, nonceUpd_status,
        mintApply_counter, nonceUpd_counter]
      rw [if_neg (by omega : ¬ tid = s.counter)]
      exact ⟨hc, by omega⟩
  | opClaim cl msg sig rid pk n =>
    simp only [applyOp, step]
    rcases hm : claim H s cl msg sig rid pk n with e | r
    · simp only [hm, Except.map]
      exact ⟨hc, ht⟩
    · rcases r with ⟨s1, t⟩
      obtain ⟨-, -, -, hst, rfl⟩ :=
        (claim_ok_iff H s s1 cl msg sig rid pk n t).mp hm
      have hne : ¬ tid = t := by
        intro hx
        rw [hx, hst] at hc
        cases hc
      simp only [hm, Except.map, claimApply_status, nonceUpd_status,
        claimApply_counter, nonceUpd_counter]
      rw [if_neg hne]
      exact ⟨hc, ht⟩
  | opTransfer f t tid' msg sig rid pk n =>
    simp only [applyOp, step]
    rcases hm : transfer H s f t tid' msg sig rid pk n with e | s1
    · simp only [hm]
      exact ⟨hc, ht⟩
    · obtain ⟨-, -, -, -, -, rfl⟩ :=
        (transfer_ok_iff H s s1 f t tid' msg sig rid pk n).mp hm
      simp only [hm, transferApply_status, nonceUpd_status,
        transferApply_counter, nonceUpd_counter]
      exact ⟨hc, ht⟩
  | opClawback t =>
    simp only [applyOp, step]
    rcases hm : clawback s t with e | s1
    · simp only [hm]
      exact ⟨hc, ht⟩
    · obtain ⟨hst, o, -, rfl⟩ := (clawback_ok_iff s s1 t).mp hm
      have hne : ¬ tid = t := by
        intro hx
        rw [hx, hst] at hc
        cases hc
      simp only [hm, clawApply_status, clawApply_counter]
      rw [if_neg hne]
      exact ⟨hc, ht⟩

theorem clawed_permanent_run (H : HostEnv) (s : ContractState)
    (ops : List Op) (tid : Nat)
    (hc : s.status tid = TokenStatus.clawedBack) (ht : tid < s.counter) :
    (run H s ops).status tid = TokenStatus.clawedBack := by
  induction ops generalizing s with
  | nil => exact hc
  | cons op rest ih =>
    obtain ⟨h1, h2⟩ := clawed_permanent_applyOp H s op tid hc ht
    exact ih (applyOp H s op) h1 h2

theorem decode_foldl_aux (L : List Nat) (a : Nat) :
    (L.reverse.map (fun d => d + 48)).foldl
        (fun acc b => 10 * acc + (b - 48)) a
      = a * 10 ^ L.length + Nat.ofDigits 10 L := by
  induction L generalizing a with
  | nil => simp
  | cons d L' ih =>
    simp only [List.reverse_cons, List.map_append, List.foldl_append,
      List.map_cons, List.map_nil, List.foldl_cons, List.foldl_nil,
      List.length_cons, ih a]
    have hd : d + 48 - 48 = d := by omega
    rw [hd, Nat.ofDigits_cons]
    ring

theorem u32_to_decimal_bytes_zero : u32_to_decimal_bytes 0 = [48] := rfl

theorem u32_to_decimal_bytes_mem (v b : Nat)
    (hb : b ∈ u32_to_decimal_bytes v) : 48 ≤ b ∧ b ≤ 57 := by
  unfold u32_to_decimal_bytes at hb
  by_cases hv : v = 0
  · rw [if_pos hv] at hb
    simp only [List.mem_singleton] at hb
    omega
  · rw [if_neg hv] at hb
    simp only [List.mem_map, List.mem_reverse] at hb
    obtain ⟨d, hd, rfl⟩ := hb
    have := Nat.digits_lt_base (by norm_num) hd
    omega

theorem u32_to_decimal_bytes_length (v : Nat) :
    (u32_to_decimal_bytes v).length
      = if v = 0 then 1 else Nat.log 10 v + 1 := by
  unfold u32_to_decimal_bytes
  by_cases hv : v = 0
  · rw [if_pos hv, if_pos hv]
    rfl
  · rw [if_neg hv, if_neg hv]
    simp [Nat.digits_len 10 v (by norm_num) hv]

theorem u32_to_decimal_bytes_no_leading_zero (v : Nat) (hv : v ≠ 0) :
    (u32_to_decimal_bytes v).head? ≠ some 48 := by
  unfold u32_to_decimal_bytes
  rw [if_neg hv]
  have hne : Nat.digits 10 v ≠ [] := Nat.digits_ne_nil_iff_ne_zero.mpr hv
  rw [List.head?_map, List.head?_reverse, List.getLast?_eq_getLast _ hne]
  have hlast := Nat.getLast_digit_ne_zero 10 hv
  simp only [Option.map_some']
  intro hcon
  injection hcon with hcon
  exact hlast (by omega)

theorem u32_to_decimal_bytes_decode (v : Nat) :
    (u32_to_decimal_bytes v).foldl (fun acc b => 10 * acc + (b - 48)) 0
      = v := by
  unfold u32_to_decimal_bytes
  by_cases hv : v = 0
  · rw [if_pos hv, hv]
    rfl
  · rw [if_neg hv, decode_foldl_aux, Nat.ofDigits_digits]
    ring

/-- A claim whose guard fails propagates the guard's error. -/
theorem claim_guard_error (H : HostEnv) (s : ContractState) (claimant : Nat)
    (message signature : List Nat) (recovery_id : Nat)
    (public_key : List Nat) (nonce : Nat) (e : NonFungibleTokenError)
    (h : verify_chip_signature H s claimant message signature recovery_id
      public_key nonce = Except.error e) :
    claim H s claimant message signature recovery_id public_key nonce
      = Except.error e := by
  unfold claim
  simp only [h]

/-- A claim whose guard succeeds on a never-minted public key fails with
`NonExistentToken`. -/
theorem claim_no_token (H : HostEnv) (s : ContractState) (claimant : Nat)
    (message signature : List Nat) (recovery_id : Nat)
    (public_key : List Nat) (nonce : Nat)
    (hrec : H.secp256k1_recover (messageDigest H message claimant nonce)
      signature recovery_id = some public_key)
    (hn : get_nonce s public_key < nonce)
    (ht : s.tokenOf public_key = none) :
    claim H s claimant message signature recovery_id public_key nonce
      = Except.error NonFungibleTokenError.NonExistentToken := by
  unfold claim
  have hv := (verify_ok_iff H s (nonceUpd s public_key nonce) claimant
    message signature recovery_id public_key nonce).mpr ⟨hrec, hn, rfl⟩
  simp only [hv, nonceUpd_tokenOf, ht]

/-- A claim whose guard succeeds on an already-claimed token fails with
`TokenAlreadyClaimed`. -/
theorem claim_already_claimed (H : HostEnv) (s : ContractState)
    (claimant : Nat) (message signature : List Nat) (recovery_id : Nat)
    (public_key : List Nat) (nonce tid : Nat)
    (hrec : H.secp256k1_recover (messageDigest H message claimant nonce)
      signature recovery_id = some public_key)
    (hn : get_nonce s public_key < nonce)
    (ht : s.tokenOf public_key = some tid)
    (hst : s.status tid = TokenStatus.claimed) :
    claim H s claimant message signature recovery_id public_key nonce
      = Except.error NonFungibleTokenError.TokenAlreadyClaimed := by
  unfold claim
  have hv := (verify_ok_iff H s (nonceUpd s public_key nonce) claimant
    message signature recovery_id public_key nonce).mpr ⟨hrec, hn, rfl⟩
  simp only [hv, nonceUpd_tokenOf, ht, nonceUpd_status, hst]

/-- A transfer that reaches the guard propagates the guard's error. -/
theorem transfer_guard_error (H : HostEnv) (s : ContractState)
    (fromA toA tid : Nat) (message signature : List Nat)
    (recovery_id : Nat) (public_key : List Nat) (nonce : Nat)
    (e : NonFungibleTokenError) (ho : s.owner tid = some fromA)
    (hst : s.status tid = TokenStatus.claimed)
    (hk : s.keyOf tid = some public_key)
    (hv : verify_chip_signature H s fromA message signature recovery_id
      public_key nonce = Except.error e) :
    transfer H s fromA toA tid message signature recovery_id public_key
      nonce = Except.error e := by
  unfold transfer
  simp only [ho, if_pos (rfl : fromA = fromA), hst, hk,
    if_pos (rfl : public_key = public_key), hv, if_true]

/-- `token_id` answers exactly the forward mapping. -/
theorem token_id_ok_iff (s : ContractState) (pk : List Nat) (tid : Nat) :
    token_id s pk = Except.ok tid ↔ s.tokenOf pk = some tid := by
  unfold token_id
  rcases h : s.tokenOf pk with _ | t
  · simp only [h]
    constructor
    · intro hcon; cases hcon
    · intro hcon; cases hcon
  · simp only [h]
    constructor
    · intro hcon
      injection hcon with hcon
      rw [hcon]
    · intro hcon
      injection hcon with hcon
      rw [hcon]

/-- `public_key` answers exactly the reverse mapping. -/
theorem public_key_ok_iff (s : ContractState) (tid : Nat) (pk : List Nat) :
    public_key s tid = Except.ok pk ↔ s.keyOf tid = some pk := by
  unfold public_key
  rcases h : s.keyOf tid with _ | k
  · simp only [h]
    constructor
    · intro hcon; cases hcon
    · intro hcon; cases hcon
  · simp only [h]
    constructor
    · intro hcon
      injection hcon with hcon
      rw [hcon]
    · intro hcon
      injection hcon with hcon
      rw [hcon]

/-- `owner_of` answers exactly the owner field. -/
theorem owner_of_ok_iff (s : ContractState) (tid o : Nat) :
    owner_of s tid = Except.ok o ↔ s.owner tid = some o := by
  unfold owner_of
  rcases h : s.owner tid with _ | x
  · simp only [h]
    constructor
    · intro hcon; cases hcon
    · intro hcon; cases hcon
  · simp only [h]
    constructor
    · intro hcon
      injection hcon with hcon
      rw [hcon]
    · intro hcon
      injection hcon with hcon
      rw [hcon]

/-- `owner_of` fails exactly on an absent owner. -/
theorem owner_of_err_iff (s : ContractState) (tid : Nat) :
    owner_of s tid = Except.error NonFungibleTokenError.NonExistentToken ↔
      s.owner tid = none := by
  unfold owner_of
  rcases h : s.owner tid with _ | x
  · simp only [h]
  · simp only [h]
    constructor
    · intro hcon; cases hcon
    · intro hcon; cases hcon

/-- C1: the stored nonce starts at 0 (absent means 0, as `get_nonce`
reports); every operation accepted through the signature guard must
supply a nonce strictly greater than the stored value; on success the
supplied nonce becomes the stored value, the write happening only after
signature recovery succeeds (success entails recovery returned exactly
the claimed key); and any second call reusing the accepted nonce for the
same chip fails with `InvalidSignature` — for mint, claim, and for
transfer whenever it reaches the guard, while a nonce-reusing transfer
can never succeed, the nonce space being shared across all three
operations. -/
theorem nonce_monotone_replay_guard
    (H : HostEnv) (s s' : ContractState) (signer : Nat)
    (message signature : List Nat) (recovery_id : Nat)
    (public_key : List Nat) (nonce : Nat)
    (h : verify_chip_signature H s signer message signature recovery_id
      public_key nonce = Except.ok s') :
    get_nonce s public_key < nonce ∧
    get_nonce s' public_key = nonce ∧
    H.secp256k1_recover (messageDigest H message signer nonce) signature
      recovery_id = some public_key ∧
    (∀ a c nm sy u m pk0, get_nonce (initState a c nm sy u m) pk0 = 0) ∧
    (∀ sg2 m2 g2 r2, verify_chip_signature H s' sg2 m2 g2 r2 public_key
      nonce = Except.error NonFungibleTokenError.InvalidSignature) ∧
    (∀ m2 g2 r2, mint H s' m2 g2 r2 public_key nonce
      = Except.error NonFungibleTokenError.InvalidSignature) ∧
    (∀ cl m2 g2 r2, claim H s' cl m2 g2 r2 public_key nonce
      = Except.error NonFungibleTokenError.InvalidSignature) ∧
    (∀ f t tid m2 g2 r2 s2,
      transfer H s' f t tid m2 g2 r2 public_key nonce ≠ Except.ok s2) ∧
    (∀ f t tid m2 g2 r2, s'.owner tid = some f →
      s'.status tid = TokenStatus.claimed →
      s'.keyOf tid = some public_key →
      transfer H s' f t tid m2 g2 r2 public_key nonce
        = Except.error NonFungibleTokenError.InvalidSignature) := by
  obtain ⟨hrec, hn, rfl⟩ := (verify_ok_iff H s s' signer message signature
    recovery_id public_key nonce).mp h
  have hset : get_nonce (nonceUpd s public_key nonce) public_key = nonce :=
    get_nonce_nonceUpd_self s public_key nonce
  have hstale : ∀ sg2 m2 g2 r2,
      verify_chip_signature H (nonceUpd s public_key nonce) sg2 m2 g2 r2
        public_key nonce
        = Except.error NonFungibleTokenError.InvalidSignature :=
    fun sg2 m2 g2 r2 =>
      verify_stale_nonce H _ sg2 m2 g2 r2 public_key nonce (by rw [hset])
  refine ⟨hn, hset, hrec, ?_, hstale, ?_, ?_, ?_, ?_⟩
  · intro a c nm sy u m pk0
    simp [initState, get_nonce]
  · intro m2 g2 r2
    exact mint_guard_error H _ m2 g2 r2 public_key nonce (hstale _ m2 g2 r2)
  · intro cl m2 g2 r2
    exact claim_guard_error H _ cl m2 g2 r2 public_key nonce _
      (hstale cl m2 g2 r2)
  · intro f t tid m2 g2 r2 s2 hcon
    obtain ⟨-, -, -, -, hn2, -⟩ := (transfer_ok_iff H _ s2 f t tid m2 g2 r2
      public_key nonce).mp hcon
    rw [hset] at hn2
    omega
  · intro f t tid m2 g2 r2 ho hst hk
    exact transfer_guard_error H _ f t tid m2 g2 r2 public_key nonce _
      ho hst hk (hstale f m2 g2 r2)

/-- C1 witness: a concrete guard acceptance at nonce 1 on a fresh state,
with the stored nonce updated to 1 and a concrete replay rejected. -/
theorem nonce_monotone_replay_guard_witness :
    verify_chip_signature testHost testInit 1 [] [] 0 chipKey 1
      = Except.ok (nonceUpd testInit chipKey 1) ∧
    get_nonce (nonceUpd testInit chipKey 1) chipKey = 1 ∧
    verify_chip_signature testHost (nonceUpd testInit chipKey 1) 1 [] [] 0
      chipKey 1 = Except.error NonFungibleTokenError.InvalidSignature := by
  have happ := nonce_monotone_replay_guard testHost testInit
    (nonceUpd testInit chipKey 1) 1 [] [] 0 chipKey 1 rfl
  exact ⟨rfl, happ.2.1, happ.2.2.2.2.1 1 [] [] 0⟩

/-- C2: the guard computes the digest as SHA-256 of the raw message bytes
followed by the host XDR encoding of the signer and of the nonce,
recovers a key with exactly the caller-supplied recovery selector, and
succeeds exactly when the recovered key equals the claimed key
byte-for-byte and the nonce is fresh; every failure, including a
recovered key differing from the claimed one, is `InvalidSignature`. -/
theorem digest_formula_selector_exact
    (H : HostEnv) (s : ContractState) (signer : Nat)
    (message signature : List Nat) (recovery_id : Nat)
    (public_key : List Nat) (nonce : Nat) :
    (verify_chip_signature H s signer message signature recovery_id
        public_key nonce = Except.ok (nonceUpd s public_key nonce) ↔
      (H.secp256k1_recover
          (H.sha256 (message ++ H.xdrAddr signer ++ H.xdrU32 nonce))
          signature recovery_id = some public_key ∧
        get_nonce s public_key < nonce)) ∧
    (∀ s', verify_chip_signature H s signer message signature recovery_id
        public_key nonce = Except.ok s' →
      s' = nonceUpd s public_key nonce) ∧
    (∀ e, verify_chip_signature H s signer message signature recovery_id
        public_key nonce = Except.error e →
      e = NonFungibleTokenError.InvalidSignature) ∧
    (∀ k, H.secp256k1_recover
        (H.sha256 (message ++ H.xdrAddr signer ++ H.xdrU32 nonce))
        signature recovery_id = some k → k ≠ public_key →
      verify_chip_signature H s signer message signature recovery_id
        public_key nonce
        = Except.error NonFungibleTokenError.InvalidSignature) := by
  have hdig : messageDigest H message signer nonce
      = H.sha256 (message ++ H.xdrAddr signer ++ H.xdrU32 nonce) := rfl
  refine ⟨?_, ?_, ?_, ?_⟩
  · rw [verify_ok_iff, hdig]
    constructor
    · rintro ⟨h1, h2, -⟩
      exact ⟨h1, h2⟩
    · rintro ⟨h1, h2⟩
      exact ⟨h1, h2, rfl⟩
  · intro s' hok
    exact ((verify_ok_iff H s s' signer message signature recovery_id
      public_key nonce).mp hok).2.2
  · intro e he
    exact verify_error_elim H s signer message signature recovery_id
      public_key nonce e he
  · intro k hk hne
    have hcond : ¬ (H.secp256k1_recover
        (messageDigest H message signer nonce) signature recovery_id
          = some public_key) := by
      rw [hdig, hk]
      intro hcon
      injection hcon with hcon
      exact hne hcon
    unfold verify_chip_signature
    rw [if_neg hcond]

/-- C2 witness: the characterization applied at a concrete input, with a
concrete successful verification derived from it. -/
theorem digest_formula_selector_exact_witness :
    verify_chip_signature testHost testInit 1 [] [] 0 chipKey 1
      = Except.ok (nonceUpd testInit chipKey 1) :=
  (digest_formula_selector_exact testHost testInit 1 [] [] 0 chipKey
    1).1.mpr ⟨rfl, by decide⟩

/-- C3: in every reachable state the chip-key/token-id registry is a
bijection written only by minting — the key-to-id and id-to-key maps are
mutually inverse (also through the `token_id` and `public_key` queries),
ids are injective over keys and dense below the counter, a second mint of
an already-mapped key never succeeds and fails with `TokenAlreadyMinted`
once past the guard and the cap, and every successful mint returns the
current counter, which equals the number of prior successful mints. -/
theorem registry_bijection_dense_mint_order
    (H : HostEnv) (a c : Nat) (nm sy u : List Nat) (m : Nat)
    (ops : List Op) (s : ContractState)
    (hs : s = run H (initState a c nm sy u m) ops) :
    (∀ pk tid, s.tokenOf pk = some tid ↔ s.keyOf tid = some pk) ∧
    (∀ pk1 pk2 tid, s.tokenOf pk1 = some tid → s.tokenOf pk2 = some tid →
      pk1 = pk2) ∧
    (∀ tid, (s.keyOf tid).isSome = true ↔ tid < s.counter) ∧
    (∀ pk tid, token_id s pk = Except.ok tid ↔
      public_key s tid = Except.ok pk) ∧
    (∀ message signature recovery_id pk nonce t,
      s.tokenOf pk = some t →
      (∀ r, mint H s message signature recovery_id pk nonce
        ≠ Except.ok r) ∧
      (H.secp256k1_recover (messageDigest H message s.admin nonce)
          signature recovery_id = some pk → get_nonce s pk < nonce →
        s.counter < s.max_tokens →
        mint H s message signature recovery_id pk nonce
          = Except.error NonFungibleTokenError.TokenAlreadyMinted)) ∧
    (∀ message signature recovery_id pk nonce s' tid,
      mint H s message signature recovery_id pk nonce
        = Except.ok (s', tid) →
      tid = s.counter ∧
      s.counter = mintSuccesses H (initState a c nm sy u m) ops ∧
      s'.tokenOf pk = some tid ∧ s'.keyOf tid = some pk) := by
  subst hs
  obtain ⟨hcap0, hbij, hdense, hstat, hown, hbal⟩ :=
    inv_run H _ ops (inv_init a c nm sy u m)
  have hcount : (run H (initState a c nm sy u m) ops).counter
      = mintSuccesses H (initState a c nm sy u m) ops := by
    have h0 := counter_run H (initState a c nm sy u m) ops
    have h1 : (initState a c nm sy u m).counter = 0 := rfl
    omega
  refine ⟨hbij, ?_, hdense, ?_, ?_, ?_⟩
  · intro pk1 pk2 tid h1 h2
    have k1 := (hbij pk1 tid).mp h1
    have k2 := (hbij pk2 tid).mp h2
    rw [k1] at k2
    exact Option.some_inj.mp k2
  · intro pk tid
    rw [token_id_ok_iff, public_key_ok_iff]
    exact hbij pk tid
  · intro message signature recovery_id pk nonce t ht
    constructor
    · intro r hcon
      rcases r with ⟨s2, t2⟩
      obtain ⟨-, -, -, hnone, -, -⟩ := (mint_ok_iff H _ s2 message
        signature recovery_id pk nonce t2).mp hcon
      rw [ht] at hnone
      cases hnone
    · intro hrec hn hcap
      exact mint_already_minted H _ message signature recovery_id pk nonce
        t hrec hn hcap ht
  · intro message signature recovery_id pk nonce s' tid hok
    obtain ⟨-, -, -, -, htid, hs'⟩ := (mint_ok_iff H _ s' message
      signature recovery_id pk nonce tid).mp hok
    subst hs'
    refine ⟨htid, hcount, ?_, ?_⟩
    · simp [htid]
    · simp [htid]

/-- C3 witness: after one concrete mint, the two registry directions hold
of token 0 and `chipKey`. -/
theorem registry_bijection_dense_mint_order_witness :
    sMinted.tokenOf chipKey = some 0 ∧ sMinted.keyOf 0 = some chipKey := by
  have happ := registry_bijection_dense_mint_order testHost 1 2 [] [] [3]
    10 opsMinted sMinted rfl
  exact ⟨rfl, (happ.1 chipKey 0).mp rfl⟩

/-- C4 (amended): transfer succeeds exactly when the token is in the
claimed state (in particular not quarantined by clawback), `from` is the
recorded owner, the supplied public key equals the chip key bound to the
token, and the signature guard succeeds with `from` as signer; on
success the owner becomes `to` and, for distinct `from` and `to`,
`from` loses exactly one balance unit and `to` gains exactly one while
all other balances are unchanged; and a transfer attempted by any
identity other than the current owner fails with `IncorrectOwner`
regardless of signature validity. -/
theorem transfer_owner_chip_guard
    (H : HostEnv) (a c : Nat) (nm sy u : List Nat) (m : Nat)
    (ops : List Op) (s : ContractState)
    (hs : s = run H (initState a c nm sy u m) ops) :
    (∀ fromA toA tid message signature recovery_id pk nonce s',
      transfer H s fromA toA tid message signature recovery_id pk nonce
          = Except.ok s' ↔
        (s.owner tid = some fromA ∧
          s.status tid = TokenStatus.claimed ∧
          s.keyOf tid = some pk ∧
          H.secp256k1_recover (messageDigest H message fromA nonce)
            signature recovery_id = some pk ∧
          get_nonce s pk < nonce ∧
          s' = transferApply (nonceUpd s pk nonce) fromA toA tid)) ∧
    (∀ fromA toA tid message signature recovery_id pk nonce s',
      transfer H s fromA toA tid message signature recovery_id pk nonce
        = Except.ok s' →
      s'.owner tid = some toA ∧
      (fromA ≠ toA → s'.balance fromA + 1 = s.balance fromA ∧
        s'.balance toA = s.balance toA + 1) ∧
      (∀ x, x ≠ fromA → x ≠ toA → s'.balance x = s.balance x)) ∧
    (∀ fromA toA tid message signature recovery_id pk nonce o,
      s.owner tid = some o → fromA ≠ o →
      transfer H s fromA toA tid message signature recovery_id pk nonce
        = Except.error NonFungibleTokenError.IncorrectOwner) := by
  subst hs
  obtain ⟨hcap0, hbij, hdense, hstat, hown, hbal⟩ :=
    inv_run H _ ops (inv_init a c nm sy u m)
  refine ⟨?_, ?_, ?_⟩
  · intro fromA toA tid message signature recovery_id pk nonce s'
    exact transfer_ok_iff H _ s' fromA toA tid message signature
      recovery_id pk nonce
  · intro fromA toA tid message signature recovery_id pk nonce s' hok
    obtain ⟨ho, hst, hk, hrec, hn, rfl⟩ := (transfer_ok_iff H _ s' fromA
      toA tid message signature recovery_id pk nonce).mp hok
    have htid : tid < (run H (initState a c nm sy u m) ops).counter :=
      (hstat tid).mp (by rw [hst]; intro hcon; cases hcon)
    have hpos : 1 ≤ (run H (initState a c nm sy u m) ops).balance fromA := by
      rw [hbal fromA]
      unfold ownedCount
      exact one_le_card_filter _ tid _ htid ⟨hst, ho⟩
    refine ⟨?_, ?_, ?_⟩
    · rw [transferApply_owner, if_pos rfl]
    · intro hne
      constructor
      · rw [transferApply_balance, nonceUpd_balance, if_neg hne,
          if_pos rfl]
        omega
      · rw [transferApply_balance, nonceUpd_balance, if_pos rfl,
          if_neg (fun hx => hne hx.symm : ¬ toA = fromA)]
    · intro x hxf hxt
      rw [transferApply_balance, nonceUpd_balance, if_neg hxt, if_neg hxf]
  · intro fromA toA tid message signature recovery_id pk nonce o ho hf
    exact transfer_incorrect_owner H _ fromA toA tid o message signature
      recovery_id pk nonce ho hf

/-- C4 witness: a concrete successful chip-authorized transfer of claimed
token 0 from owner 5 to 6, and a concrete non-owner attempt failing with
`IncorrectOwner`. -/
theorem transfer_owner_chip_guard_witness :
    transfer testHost sClaimed 5 6 0 [] [] 0 chipKey 3
      = Except.ok (transferApply (nonceUpd sClaimed chipKey 3) 5 6 0) ∧
    transfer testHost sClaimed 9 6 0 [] [] 0 chipKey 3
      = Except.error NonFungibleTokenError.IncorrectOwner := by
  have happ := transfer_owner_chip_guard testHost 1 2 [] [] [3] 10
    opsClaimed sClaimed rfl
  refine ⟨?_, ?_⟩
  · exact (happ.1 5 6 0 [] [] 0 chipKey 3 _).mpr
      ⟨rfl, rfl, rfl, rfl, by decide, rfl⟩
  · exact happ.2.2 9 6 0 [] [] 0 chipKey 3 5 rfl (by decide)

/-- C4 counterexample: token 0 has been quarantined by clawback; the
contract address 2 is its recorded owner (`owner_of` reports it), the
supplied key equals the bound chip key, and the signature guard would
succeed at nonce 4 — yet the transfer fails (with `TokenNotClaimed`)
instead of changing the owner, refuting the claimed equivalence as
stated. -/
theorem transfer_owner_chip_guard_counterexample :
    owner_of sClawed 0 = Except.ok 2 ∧
    sClawed.owner 0 = some 2 ∧
    sClawed.keyOf 0 = some chipKey ∧
    verify_chip_signature testHost sClawed 2 [] [] 0 chipKey 4
      = Except.ok (nonceUpd sClawed chipKey 4) ∧
    transfer testHost sClawed 2 6 0 [] [] 0 chipKey 4
      = Except.error NonFungibleTokenError.TokenNotClaimed :=
  ⟨rfl, rfl, rfl, rfl, rfl⟩

/-- C5: claiming a never-minted public key never succeeds (and fails with
`NonExistentToken` once past the guard), claiming an already-claimed
token never succeeds (and fails with `TokenAlreadyClaimed` once past the
guard), and a successful claim returns the token id mapped to the public
key, makes the claimant the owner, and increases the claimant's balance
and the global claimed-count by exactly 1. -/
theorem claim_lifecycle
    (H : HostEnv) (a c : Nat) (nm sy u : List Nat) (m : Nat)
    (ops : List Op) (s : ContractState)
    (hs : s = run H (initState a c nm sy u m) ops) :
    (∀ cl message signature recovery_id pk nonce,
      s.tokenOf pk = none →
      (∀ r, claim H s cl message signature recovery_id pk nonce
        ≠ Except.ok r) ∧
      (H.secp256k1_recover (messageDigest H message cl nonce) signature
          recovery_id = some pk → get_nonce s pk < nonce →
        claim H s cl message signature recovery_id pk nonce
          = Except.error NonFungibleTokenError.NonExistentToken)) ∧
    (∀ cl message signature recovery_id pk nonce tid,
      s.tokenOf pk = some tid → s.status tid = TokenStatus.claimed →
      (∀ r, claim H s cl message signature recovery_id pk nonce
        ≠ Except.ok r) ∧
      (H.secp256k1_recover (messageDigest H message cl nonce) signature
          recovery_id = some pk → get_nonce s pk < nonce →
        claim H s cl message signature recovery_id pk nonce
          = Except.error NonFungibleTokenError.TokenAlreadyClaimed)) ∧
    (∀ cl message signature recovery_id pk nonce s' tid,
      claim H s cl message signature recovery_id pk nonce
        = Except.ok (s', tid) →
      s.tokenOf pk = some tid ∧
      s'.owner tid = some cl ∧
      s'.balance cl = s.balance cl + 1 ∧
      claimedCount s' = claimedCount s + 1) := by
  subst hs
  obtain ⟨hcap0, hbij, hdense, hstat, hown, hbal⟩ :=
    inv_run H _ ops (inv_init a c nm sy u m)
  refine ⟨?_, ?_, ?_⟩
  · intro cl message signature recovery_id pk nonce ht
    constructor
    · intro r hcon
      rcases r with ⟨s2, t2⟩
      obtain ⟨-, -, hsome, -, -⟩ := (claim_ok_iff H _ s2 cl message
        signature recovery_id pk nonce t2).mp hcon
      rw [ht] at hsome
      cases hsome
    · intro hrec hn
      exact claim_no_token H _ cl message signature recovery_id pk nonce
        hrec hn ht
  · intro cl message signature recovery_id pk nonce tid ht hst
    constructor
    · intro r hcon
      rcases r with ⟨s2, t2⟩
      obtain ⟨-, -, hsome, hmint, -⟩ := (claim_ok_iff H _ s2 cl message
        signature recovery_id pk nonce t2).mp hcon
      rw [ht] at hsome
      injection hsome with hsome
      rw [← hsome] at hmint
      rw [hst] at hmint
      cases hmint
    · intro hrec hn
      exact claim_already_claimed H _ cl message signature recovery_id pk
        nonce tid hrec hn ht hst
  · intro cl message signature recovery_id pk nonce s' tid hok
    obtain ⟨hrec, hn, ht, hst, rfl⟩ := (claim_ok_iff H _ s' cl message
      signature recovery_id pk nonce tid).mp hok
    have htid : tid < (run H (initState a c nm sy u m) ops).counter :=
      (hdense tid).mp (by rw [(hbij pk tid).mp ht]; rfl)
    refine ⟨ht, ?_, ?_, ?_⟩
    · rw [claimApply_owner, if_pos rfl]
    · rw [claimApply_balance, if_pos rfl, nonceUpd_balance]
    · unfold claimedCount
      simp only [claimApply_counter, nonceUpd_counter, claimApply_status,
        nonceUpd_status]
      refine card_filter_set_true _ tid _ _ htid ?_ ?_ ?_
      · intro hcon
        rw [hst] at hcon
        cases hcon
      · rw [if_pos rfl]
      · intro x hx
        rw [if_neg hx]

/-- C5 witness: a concrete successful claim of minted token 0 by address
5 at nonce 2, raising the claimed-count by one. -/
theorem claim_lifecycle_witness :
    claim testHost sMinted 5 [] [] 0 chipKey 2
      = Except.ok (claimApply (nonceUpd sMinted chipKey 2) 5 0, 0) ∧
    claimedCount (claimApply (nonceUpd sMinted chipKey 2) 5 0)
      = claimedCount sMinted + 1 := by
  have happ := claim_lifecycle testHost 1 2 [] [] [3] 10 opsMinted
    sMinted rfl
  exact ⟨rfl, (happ.2.2 5 [] [] 0 chipKey 2 _ 0 rfl).2.2.2⟩

/-- C6: in every reachable state `next_token_id` never exceeds
`max_tokens` and equals the number of successful mints of the trace;
once the counter has reached `max_tokens`, no further mint can succeed,
a mint past the guard fails with `TokenIDsAreDepleted`, and the failed
call leaves the whole state unchanged. -/
theorem cap_and_mint_count
    (H : HostEnv) (a c : Nat) (nm sy u : List Nat) (m : Nat)
    (ops : List Op) (s : ContractState)
    (hs : s = run H (initState a c nm sy u m) ops) :
    next_token_id s ≤ m ∧
    s.max_tokens = m ∧
    next_token_id s = mintSuccesses H (initState a c nm sy u m) ops ∧
    (next_token_id s = m →
      ∀ message signature recovery_id pk nonce,
        (∀ r, mint H s message signature recovery_id pk nonce
          ≠ Except.ok r) ∧
        (H.secp256k1_recover (messageDigest H message s.admin nonce)
            signature recovery_id = some pk → get_nonce s pk < nonce →
          mint H s message signature recovery_id pk nonce
            = Except.error NonFungibleTokenError.TokenIDsAreDepleted) ∧
        run H s [Op.opMint message signature recovery_id pk nonce] = s) := by
  subst hs
  have hInv := inv_run H _ ops (inv_init a c nm sy u m)
  have hframe := run_frame H (initState a c nm sy u m) ops
  have hmax : (run H (initState a c nm sy u m) ops).max_tokens = m :=
    hframe.2.2.2
  have hcount : (run H (initState a c nm sy u m) ops).counter
      = mintSuccesses H (initState a c nm sy u m) ops := by
    have h0 := counter_run H (initState a c nm sy u m) ops
    have h1 : (initState a c nm sy u m).counter = 0 := rfl
    omega
  have hcap : (run H (initState a c nm sy u m) ops).counter ≤ m := by
    have := hInv.1
    omega
  refine ⟨hcap, hmax, hcount, ?_⟩
  intro hfull message signature recovery_id pk nonce
  have hge : (run H (initState a c nm sy u m) ops).max_tokens
      ≤ (run H (initState a c nm sy u m) ops).counter := by
    have : next_token_id (run H (initState a c nm sy u m) ops)
        = (run H (initState a c nm sy u m) ops).counter := rfl
    omega
  have hnever : ∀ r, mint H (run H (initState a c nm sy u m) ops) message
      signature recovery_id pk nonce ≠ Except.ok r := by
    intro r hcon
    rcases r with ⟨s2, t2⟩
    obtain ⟨-, -, hlt, -, -, -⟩ := (mint_ok_iff H _ s2 message signature
      recovery_id pk nonce t2).mp hcon
    omega
  refine ⟨hnever, ?_, ?_⟩
  · intro hrec hn
    exact mint_depleted H _ message signature recovery_id pk nonce hrec
      hn hge
  · show applyOp H (run H (initState a c nm sy u m) ops)
        (Op.opMint message signature recovery_id pk nonce)
      = run H (initState a c nm sy u m) ops
    unfold applyOp
    simp only [step]
    rcases hm : mint H (run H (initState a c nm sy u m) ops) message
        signature recovery_id pk nonce with e | r
    · simp only [hm, Except.map]
    · exact absurd hm (hnever r)

/-- C6 witness: a cap-1 contract with its single token minted rejects a
further guard-passing mint with `TokenIDsAreDepleted`, and its counter
equals the number of successful mints. -/
theorem cap_and_mint_count_witness :
    mint testHost sFull [] [] 0 chipKey 2
      = Except.error NonFungibleTokenError.TokenIDsAreDepleted ∧
    next_token_id sFull = mintSuccesses testHost testInit1 opsFull := by
  have happ := cap_and_mint_count testHost 1 2 [] [] [3] 1 opsFull
    sFull rfl
  exact ⟨(happ.2.2.2 rfl [] [] 0 chipKey 2).2.1 rfl (by decide),
    happ.2.2.1⟩

/-- C7: clawback of a claimed token succeeds, parks the token at the
contract's own holding address, decrements the prior owner's balance by
exactly 1 while no other balance changes (pure decrement), keeps the
token record (key mapping and counter) intact, makes a second clawback
fail, and quarantine is permanent — every state reachable afterwards
still has the token clawed back; clawback of an unminted token fails
with `NonExistentToken` and of a minted-but-unclaimed token with
`TokenNotClaimed`. -/
theorem clawback_quarantine
    (H : HostEnv) (a c : Nat) (nm sy u : List Nat) (m : Nat)
    (ops : List Op) (s : ContractState)
    (hs : s = run H (initState a c nm sy u m) ops) :
    (∀ tid, s.status tid = TokenStatus.unminted →
      clawback s tid
        = Except.error NonFungibleTokenError.NonExistentToken) ∧
    (∀ tid, s.status tid = TokenStatus.minted →
      clawback s tid
        = Except.error NonFungibleTokenError.TokenNotClaimed) ∧
    (∀ tid o s', s.owner tid = some o → clawback s tid = Except.ok s' →
      s'.owner tid = some s.contract_addr ∧
      s'.balance o + 1 = s.balance o ∧
      (∀ x, x ≠ o → s'.balance x = s.balance x) ∧
      s'.keyOf tid = s.keyOf tid ∧
      s'.counter = s.counter ∧
      clawback s' tid
        = Except.error NonFungibleTokenError.TokenNotClaimed ∧
      (∀ H2 ops2,
        (run H2 s' ops2).status tid = TokenStatus.clawedBack)) := by
  subst hs
  obtain ⟨hcap0, hbij, hdense, hstat, hown, hbal⟩ :=
    inv_run H _ ops (inv_init a c nm sy u m)
  refine ⟨?_, ?_, ?_⟩
  · intro tid hst
    unfold clawback
    simp only [hst]
  · intro tid hst
    unfold clawback
    simp only [hst]
  · intro tid o s' ho hok
    obtain ⟨hst, o2, ho2, rfl⟩ := (clawback_ok_iff _ s' tid).mp hok
    rw [ho] at ho2
    have ho3 := Option.some_inj.mp ho2
    subst ho3
    have htid : tid < (run H (initState a c nm sy u m) ops).counter :=
      (hstat tid).mp (by rw [hst]; intro hcon; cases hcon)
    have hpos : 1 ≤ (run H (initState a c nm sy u m) ops).balance o := by
      rw [hbal o]
      unfold ownedCount
      exact one_le_card_filter _ tid _ htid ⟨hst, ho⟩
    refine ⟨?_, ?_, ?_, rfl, rfl, ?_, ?_⟩
    · rw [clawApply_owner, if_pos rfl]
    · rw [clawApply_balance, if_pos rfl]
      omega
    · intro x hx
      rw [clawApply_balance, if_neg hx]
    · unfold clawback
      have hcs : (clawApply (run H (initState a c nm sy u m) ops) tid
          o).status tid = TokenStatus.clawedBack := by
        rw [clawApply_status, if_pos rfl]
      simp only [hcs]
    · intro H2 ops2
      refine clawed_permanent_run H2 _ ops2 tid ?_ ?_
      · rw [clawApply_status, if_pos rfl]
      · rw [clawApply_counter]
        exact htid

/-- C7 witness: a concrete clawback of claimed token 0 owned by 5 parks
the token at contract address 2, zeroes owner 5's balance, and a second
clawback fails. -/
theorem clawback_quarantine_witness :
    clawback sClaimed 0 = Except.ok (clawApply sClaimed 0 5) ∧
    (clawApply sClaimed 0 5).owner 0 = some 2 ∧
    clawback (clawApply sClaimed 0 5) 0
      = Except.error NonFungibleTokenError.TokenNotClaimed := by
  have happ := clawback_quarantine testHost 1 2 [] [] [3] 10 opsClaimed
    sClaimed rfl
  have h3 := happ.2.2 0 5 (clawApply sClaimed 0 5) rfl rfl
  exact ⟨rfl, h3.1, h3.2.2.2.2.2.1⟩

/-- C8: a token has an owner exactly when it is claimed or was claimed
and then clawed back; `owner_of` fails with `NonExistentToken` both for a
never-minted id and for a minted-but-unclaimed token, while the
existence-derived queries `public_key` and `token_uri` succeed for a
minted-but-unclaimed token and fail for a never-minted id. -/
theorem ownership_queries
    (H : HostEnv) (a c : Nat) (nm sy u : List Nat) (m : Nat)
    (ops : List Op) (s : ContractState)
    (hs : s = run H (initState a c nm sy u m) ops) :
    (∀ tid, s.counter ≤ tid →
      owner_of s tid
        = Except.error NonFungibleTokenError.NonExistentToken ∧
      public_key s tid
        = Except.error NonFungibleTokenError.NonExistentToken ∧
      token_uri s tid
        = Except.error NonFungibleTokenError.NonExistentToken) ∧
    (∀ tid, s.status tid = TokenStatus.minted →
      owner_of s tid
        = Except.error NonFungibleTokenError.NonExistentToken ∧
      (∃ k, public_key s tid = Except.ok k) ∧
      (∃ uri0, token_uri s tid = Except.ok uri0)) ∧
    (∀ tid, (∃ o, owner_of s tid = Except.ok o) ↔
      (s.status tid = TokenStatus.claimed ∨
        s.status tid = TokenStatus.clawedBack)) := by
  subst hs
  obtain ⟨hcap0, hbij, hdense, hstat, hown, hbal⟩ :=
    inv_run H _ ops (inv_init a c nm sy u m)
  refine ⟨?_, ?_, ?_⟩
  · intro tid htid
    have hkey : (run H (initState a c nm sy u m) ops).keyOf tid = none := by
      rcases hk : (run H (initState a c nm sy u m) ops).keyOf tid with _ | k
      · rfl
      · have : tid < (run H (initState a c nm sy u m) ops).counter :=
          (hdense tid).mp (by rw [hk]; rfl)
        omega
    have hst : (run H (initState a c nm sy u m) ops).status tid
        = TokenStatus.unminted := by
      by_contra hcon
      have := (hstat tid).mp hcon
      omega
    have hnoowner : (run H (initState a c nm sy u m) ops).owner tid
        = none := by
      rcases hw : (run H (initState a c nm sy u m) ops).owner tid with _ | w
      · rfl
      · have h2 := (hown tid).mp (by rw [hw]; rfl)
        rcases h2 with h2 | h2 <;> rw [hst] at h2 <;> cases h2
    refine ⟨?_, ?_, ?_⟩
    · exact (owner_of_err_iff _ tid).mpr hnoowner
    · unfold public_key
      simp only [hkey]
    · unfold token_uri
      simp only [hkey]
  · intro tid hst
    have hlt : tid < (run H (initState a c nm sy u m) ops).counter :=
      (hstat tid).mp (by rw [hst]; intro hcon; cases hcon)
    have hkey : ∃ k, (run H (initState a c nm sy u m) ops).keyOf tid
        = some k := by
      have := (hdense tid).mpr hlt
      exact Option.isSome_iff_exists.mp this
    obtain ⟨k, hk⟩ := hkey
    have hnoowner : (run H (initState a c nm sy u m) ops).owner tid
        = none := by
      rcases hw : (run H (initState a c nm sy u m) ops).owner tid with _ | w
      · rfl
      · have h2 := (hown tid).mp (by rw [hw]; rfl)
        rcases h2 with h2 | h2 <;> rw [hst] at h2 <;> cases h2
    refine ⟨(owner_of_err_iff _ tid).mpr hnoowner, ⟨k, ?_⟩, ?_⟩
    · exact (public_key_ok_iff _ tid k).mpr hk
    · refine ⟨(run H (initState a c nm sy u m) ops).uri
        ++ 47 :: u32_to_decimal_bytes tid, ?_⟩
      unfold token_uri
      simp only [hk]
  · intro tid
    constructor
    · rintro ⟨o, hok⟩
      have := (owner_of_ok_iff _ tid o).mp hok
      exact (hown tid).mp (by rw [this]; rfl)
    · intro hcl
      have := (hown tid).mpr hcl
      obtain ⟨o, ho⟩ := Option.isSome_iff_exists.mp this
      exact ⟨o, (owner_of_ok_iff _ tid o).mpr ho⟩

/-- C8 witness: on the concrete minted-but-unclaimed token 0, `owner_of`
fails with `NonExistentToken` while `public_key` succeeds. -/
theorem ownership_queries_witness :
    owner_of sMinted 0
      = Except.error NonFungibleTokenError.NonExistentToken ∧
    public_key sMinted 0 = Except.ok chipKey := by
  have happ := ownership_queries testHost 1 2 [] [] [3] 10 opsMinted
    sMinted rfl
  exact ⟨((happ.2.1 0 rfl)).1, rfl⟩

/-- C9: the decimal encoder returns exactly the ASCII decimal digit
bytes of its argument, most significant first — every byte is an ASCII
digit, 0 encodes as the single byte 48 and no other encoding has a
leading zero byte, the length is the number of decimal digits, and
reading the bytes back most-significant-first reconstructs the value;
`token_uri` of every minted token is the collection base URI, a slash
(byte 47), then this decimal encoding of the id. -/
theorem decimal_encoder_token_uri :
    u32_to_decimal_bytes 0 = [48] ∧
    (∀ v, v ≠ 0 → (u32_to_decimal_bytes v).head? ≠ some 48) ∧
    (∀ v b, b ∈ u32_to_decimal_bytes v → 48 ≤ b ∧ b ≤ 57) ∧
    (∀ v, (u32_to_decimal_bytes v).length
      = if v = 0 then 1 else Nat.log 10 v + 1) ∧
    (∀ v, (u32_to_decimal_bytes v).foldl
      (fun acc b => 10 * acc + (b - 48)) 0 = v) ∧
    (∀ H a c nm sy u m ops tid pk,
      (run H (initState a c nm sy u m) ops).keyOf tid = some pk →
      token_uri (run H (initState a c nm sy u m) ops) tid
        = Except.ok (u ++ 47 :: u32_to_decimal_bytes tid)) := by
  refine ⟨u32_to_decimal_bytes_zero, u32_to_decimal_bytes_no_leading_zero,
    u32_to_decimal_bytes_mem, u32_to_decimal_bytes_length,
    u32_to_decimal_bytes_decode, ?_⟩
  intro H a c nm sy u m ops tid pk hk
  have huri : (run H (initState a c nm sy u m) ops).uri = u :=
    (run_frame H (initState a c nm sy u m) ops).2.2.1
  unfold token_uri
  simp only [hk, huri]

/-- C9 witness: the encoder evaluated at 12345 and the URI of concrete
minted token 0. -/
theorem decimal_encoder_token_uri_witness :
    u32_to_decimal_bytes 12345 = [49, 50, 51, 52, 53] ∧
    (u32_to_decimal_bytes 12345).foldl
      (fun acc b => 10 * acc + (b - 48)) 0 = 12345 ∧
    token_uri sMinted 0 = Except.ok ([3] ++ 47 :: u32_to_decimal_bytes 0) :=
  ⟨by simp [u32_to_decimal_bytes],
    decimal_encoder_token_uri.2.2.2.2.1 12345,
    decimal_encoder_token_uri.2.2.2.2.2 testHost 1 2 [] [] [3]
      10 opsMinted 0 chipKey rfl⟩

/-- C10: the token-id width is mixed in the source — the trait's public
operations use u32 ids while the event structs declare u64 ids (both
modelled as Nat here) — yet for every successful mint, claim and
transfer the emitted event carries exactly the operation's token id:
the appended event is the declared struct with the same id value, and
for mint and claim that value fits in 32 bits (hence embeds into the
64-bit field unchanged) whenever the cap does. -/
theorem event_token_id_width
    (H : HostEnv) (a c : Nat) (nm sy u : List Nat) (m : Nat)
    (ops : List Op) (s : ContractState)
    (hs : s = run H (initState a c nm sy u m) ops) (hm : m < 2 ^ 32) :
    (∀ message signature recovery_id pk nonce s' tid,
      mint H s message signature recovery_id pk nonce
        = Except.ok (s', tid) →
      s'.events = s.events ++ [Event.mintEv tid] ∧
      tid < 2 ^ 32 ∧ tid < 2 ^ 64) ∧
    (∀ cl message signature recovery_id pk nonce s' tid,
      claim H s cl message signature recovery_id pk nonce
        = Except.ok (s', tid) →
      s'.events = s.events ++ [Event.claimEv cl tid] ∧
      tid < 2 ^ 32 ∧ tid < 2 ^ 64) ∧
    (∀ fromA toA tid message signature recovery_id pk nonce s',
      transfer H s fromA toA tid message signature recovery_id pk nonce
        = Except.ok s' →
      s'.events = s.events ++ [Event.transferEv fromA toA tid]) := by
  subst hs
  obtain ⟨hcap0, hbij, hdense, hstat, hown, hbal⟩ :=
    inv_run H _ ops (inv_init a c nm sy u m)
  have hmax : (run H (initState a c nm sy u m) ops).max_tokens = m :=
    (run_frame H (initState a c nm sy u m) ops).2.2.2
  have hpow : (2 : Nat) ^ 32 ≤ 2 ^ 64 := by norm_num
  refine ⟨?_, ?_, ?_⟩
  · intro message signature recovery_id pk nonce s' tid hok
    obtain ⟨-, -, hlt, -, htid, rfl⟩ := (mint_ok_iff H _ s' message
      signature recovery_id pk nonce tid).mp hok
    refine ⟨?_, by omega, by omega⟩
    rw [mintApply_events, nonceUpd_events, nonceUpd_counter, htid]
  · intro cl message signature recovery_id pk nonce s' tid hok
    obtain ⟨-, -, ht, -, rfl⟩ := (claim_ok_iff H _ s' cl message
      signature recovery_id pk nonce tid).mp hok
    have hlt : tid < (run H (initState a c nm sy u m) ops).counter :=
      (hdense tid).mp (by rw [(hbij pk tid).mp ht]; rfl)
    have hcap : (run H (initState a c nm sy u m) ops).counter ≤ m := by
      have := hcap0
      omega
    refine ⟨?_, by omega, by omega⟩
    rw [claimApply_events, nonceUpd_events]
  · intro fromA toA tid message signature recovery_id pk nonce s' hok
    obtain ⟨-, -, -, -, -, rfl⟩ := (transfer_ok_iff H _ s' fromA toA tid
      message signature recovery_id pk nonce).mp hok
    rw [transferApply_events, nonceUpd_events]

/-- C10 witness: the concrete first mint emits exactly the mint event
carrying token id 0. -/
theorem event_token_id_width_witness :
    mint testHost testInit [] [] 0 chipKey 1
      = Except.ok ((mintApply (nonceUpd testInit chipKey 1) chipKey).1, 0) ∧
    (mintApply (nonceUpd testInit chipKey 1) chipKey).1.events
      = testInit.events ++ [Event.mintEv 0] := by
  have happ := event_token_id_width testHost 1 2 [] [] [3] 10 [] testInit
    rfl (by norm_num)
  exact ⟨rfl, (happ.1 [] [] 0 chipKey 1 _ 0 rfl).1⟩

end NFC
